import Mathlib

/-!
Verification of the SQL-checker core of a compile-time SQL linter.

The development embeds, as executable Lean definitions, the two subsystems of
the program: the SQL semantic checker (scope/symbol table, statement traversal,
identifier and parameter-type diagnostics) and the call-site resolver of the
host-language front end (tagged-expression descent and constant-driven
re-scan).  Machine integers of the host language are modelled as `Int`/`Nat`,
fallible code (which aborts via `panic` in the source) returns `Except`, and
in-place mutation of the scope is modelled by explicit state passing.
Source positions inside SQL strings are plain byte offsets, exactly as in the
program; host-file positions are not computed by the embedded fragments and
are threaded through unchanged.
-/

namespace Boilcheck

/-! ## Catalog data model (drivers.Column / drivers.Table / drivers.DBInfo) -/

structure Column where
  name : String
  type : String
  dbType : String
  udtName : String
  fullDBType : String
  nullable : Bool
  unique : Bool
deriving Repr, DecidableEq

structure Table where
  schemaName : String
  name : String
  columns : List Column
deriving Repr, DecidableEq

structure DBInfo where
  tables : List Table
deriving Repr, DecidableEq

/-! ## Call records and diagnostics -/

structure FilePos where
  filename : String
  line : Int
  column : Int
deriving Repr, DecidableEq

/-- A whitelisted database-access call found in a host source file. -/
structure Call where
  sql : String
  argTypes : List String
  pkg : String
  pos : FilePos
deriving Repr, DecidableEq

/-- Kinds of identifier errors: `Unknown = 0`, `Ambiguous = 1` (Go `iota`). -/
def Unknown : Nat := 0

def Ambiguous : Nat := 1

/-- The diagnostics emitted by the checker: `IdentErr`, `TypeErr`, and the
generic `fmt.Errorf` used for a failed driver-type import lookup. -/
inductive Err where
  | identErr (kind : Nat) (schema table column : String) (location : Int) (fnCall : Call)
  | typeErr (schema table column callType driverType dbType : String)
      (parameter : Int) (location : Int) (fnCall : Call)
  | genericErr (msg : String)
deriving Repr, DecidableEq

/-! ## Scope: the statement-local symbol table -/

structure outputColRef where
  name : String
  col : Option Column
deriving Repr, DecidableEq

structure Scope where
  info : DBInfo
  tables : List Table
  aliases : List String
  outputNames : List outputColRef
deriving Repr, DecidableEq

def NewScope (info : DBInfo) : Scope :=
  { info := info, tables := [], aliases := [], outputNames := [] }

/-- The method `clone` copies the three stacks element by element and shares the catalog. -/
def Scope.clone (s : Scope) : Scope :=
  { info := s.info
    tables := s.tables
    aliases := s.aliases
    outputNames := s.outputNames }

/-- The method `pushTable` searches the catalog tables in order; when `schema` is
non-empty a table with a different schema is skipped; the first table whose
name matches is appended (alias first, then table) and the push succeeds. -/
def Scope.pushTable (s : Scope) (schema table alias_ : String) : Scope × Bool :=
  match s.info.tables.find? (fun t =>
      (schema == "" || t.schemaName == schema) && t.name == table) with
  | some t =>
      ({ s with aliases := s.aliases ++ [alias_], tables := s.tables ++ [t] }, true)
  | none => (s, false)

def Scope.pushPseudoTable (s : Scope) (alias_ : String) (data : Table) : Scope :=
  { s with aliases := s.aliases ++ [alias_], tables := s.tables ++ [data] }

/-- The method `popTable` drops the top of both stacks.  (The program would abort on an
empty stack; the checker only ever pops entries it pushed.) -/
def Scope.popTable (s : Scope) : Scope :=
  { s with aliases := s.aliases.dropLast, tables := s.tables.dropLast }

def Scope.pushOutputName (s : Scope) (name : String) (col : Option Column) : Scope :=
  { s with outputNames := s.outputNames ++ [{ name := name, col := col }] }

def Scope.popOutputName (s : Scope) : Scope :=
  { s with outputNames := s.outputNames.dropLast }

/-- Scope lookup result codes (Go `iota`): `Ok = 0`, `Ambiguous = 1`,
`Unknown = 2`. -/
def scopeRetOk : Nat := 0

def scopeRetAmbiguous : Nat := 1

def scopeRetUnknown : Nat := 2

/-- The loop of `Scope.get`'s non-empty-table branch: a single forward scan of
the parallel stacks.  At each index the alias is compared first; then, unless
a supplied schema rules the entry out, the table's own name.  (The two stacks
always have equal length; the scan stops at the end of either.) -/
def findInScope (tables : List Table) (aliases : List String)
    (schema table : String) : Option Table :=
  match tables, aliases with
  | t :: ts, a :: rest =>
      if a == table then some t
      else if schema != "" && t.schemaName != schema then
        findInScope ts rest schema table
      else if t.name == table then some t
      else findInScope ts rest schema table
  | _, _ => none

/-- Inner loop of the empty-table branch of `Scope.get`: scan one table's
columns, threading the `(column so far, ret)` accumulator.  `none` models the
early `return nil, scopeRetAmbiguous` on a second hit. -/
def scanTableCols (column : String) (cols : List Column)
    (acc : Option Column × Nat) : Option (Option Column × Nat) :=
  match cols with
  | [] => some acc
  | c :: rest =>
      if c.name == column then
        if acc.2 == scopeRetOk then none
        else scanTableCols column rest (some c, scopeRetOk)
      else scanTableCols column rest acc

/-- Outer loop of the empty-table branch of `Scope.get` over all in-scope
tables. -/
def scanTables (column : String) (tables : List Table)
    (acc : Option Column × Nat) : Option (Option Column × Nat) :=
  match tables with
  | [] => some acc
  | t :: rest =>
      match scanTableCols column t.columns acc with
      | none => none
      | some acc2 => scanTables column rest acc2

/-- Resolution in `Scope.get`: resolve `(schema?, table?, column)` to a column record and a
status code. -/
def Scope.get (s : Scope) (schema table column : String) : Option Column × Nat :=
  if table ≠ "" then
    match findInScope s.tables s.aliases schema table with
    | none => (none, scopeRetUnknown)
    | some inScope =>
        match inScope.columns.find? (fun c => c.name == column) with
        | some c => (some c, scopeRetOk)
        | none => (none, scopeRetUnknown)
  else
    match scanTables column s.tables (none, scopeRetUnknown) with
    | none => (none, scopeRetAmbiguous)
    | some acc =>
        match s.outputNames.find? (fun o => o.name == column) with
        | some o => (o.col, scopeRetOk)
        | none => acc

def Scope.has (s : Scope) (schema table column : String) : Nat :=
  (s.get schema table column).2

/-- Build the pseudo-table for an aliased sub-select from its output columns
(`outputColsToPseudoTable`).  A `none` output column contributes a zero-value
column carrying only the output name. -/
def outputColsToPseudoTable (name : String) (refs : List outputColRef) : Table :=
  { schemaName := ""
    name := name
    columns := refs.map (fun r =>
      match r.col with
      | some c => { c with name := r.name }
      | none =>
          { name := r.name, type := "", dbType := "", udtName := ""
            fullDBType := "", nullable := false, unique := false }) }

/-! ## String/path helpers used by the type checker

`strings.Split` is `String.splitOn` (the separator `"."` is non-empty);
`strings.Trim(i, "\"")` removes leading and trailing quote characters;
`path.Base` drops trailing slashes and returns the part after the last
slash, with the Go corner cases for the empty and all-slash strings. -/

def trimQuotes (s : String) : String :=
  String.mk (((s.data.dropWhile (fun c => c == '"')).reverse.dropWhile
    (fun c => c == '"')).reverse)

/-- The function `strings.Split` for a one-character separator (the program only ever
splits on `"."`): cut at every occurrence, keeping empty pieces. -/
def stringsSplitChars (sep : Char) : List Char → List Char → List String
  | [], acc => [String.mk acc.reverse]
  | c :: rest, acc =>
      if c = sep then String.mk acc.reverse :: stringsSplitChars sep rest []
      else stringsSplitChars sep rest (c :: acc)

def stringsSplit (s : String) (sep : Char) : List String :=
  stringsSplitChars sep s.data []

def goPathBase (p : String) : String :=
  if p = "" then "."
  else
    let trimmed := (p.data.reverse.dropWhile (fun c => c == '/')).reverse
    if trimmed = [] then "/"
    else String.mk ((trimmed.reverse.takeWhile (fun c => c ≠ '/')).reverse)

/-- The driver's declared imports for one driver type
(`importers.Set`: standard plus third-party). -/
structure ImportSet where
  standard : List String
  thirdParty : List String
deriving Repr, DecidableEq

/-- The application state seen by the checker: the catalog and the driver's
imports keyed by driver type (`State.Imports.BasedOnType`; a missing key
yields the zero value, so the map is total). -/
structure State where
  dbInfo : DBInfo
  importsBasedOnType : String → ImportSet

/-- The import-resolution loop of `typeCheck`: find the first declared import
(standard then third-party, quotes trimmed) whose `path.Base` equals the
*second* segment of the dotted driver type.  The Go code then assembles
`imp = path.Join(path.Dir(noQuotes), col.Type)` and only ever tests
`len(imp) == 0`; since `col.Type` is non-empty in this branch, `imp` is
non-empty exactly when the loop matched, which this `Option` models. -/
def findDriverImport (seg : String) (imps : List String) : Option String :=
  imps.find? (fun i => seg == goPathBase (trimQuotes i))

/-! ## The parsed SQL statement tree

The checker consumes the node kinds listed in its dispatch; every other node
kind is `otherNode` (a no-op for the recursion, as in the source's `switch`
without `default`).  The interface value `nil` is `null`.  A `ColumnRef`
field is either a name (`pgnodes.String`) or the star marker (`A_Star`). -/

inductive ColField where
  | str (s : String)
  | star
deriving Repr, DecidableEq

/-- The fields of a `RangeVar` read by the checker (`nil` string pointers are
`none`; the alias collapses `Alias.Aliasname`). -/
structure RangeVarData where
  schemaname : Option String
  relname : String
  aliasname : Option String
  location : Int
deriving Repr, DecidableEq

inductive Node where
  | null
  | rawStmt (stmt : Node)
  | selectStmt (targetList : List Node) (fromClause : List Node)
      (whereClause : Node) (groupClause : List Node) (havingClause : Node)
      (sortClause : List Node) (larg rarg : Option Node)
  | updateStmt (relation : RangeVarData) (targetList : List Node) (whereClause : Node)
  | insertStmt (relation : RangeVarData) (cols : List Node)
  | deleteStmt (relation : RangeVarData) (whereClause : Node)
  | sortBy (node : Node)
  | funcCall (args : List Node)
  | aExpr (lexpr rexpr : Node)
  | boolExpr (args : List Node)
  | columnRef (fields : List ColField) (location : Int)
  | paramRef (number : Int) (location : Int)
  | subLink (subselect : Node)
  | resTarget (name : Option String) (val : Node) (location : Int)
  | rangeVar (rv : RangeVarData)
  | joinExpr (larg rarg quals : Node)
  | rangeSubselect (lateral : Bool) (aliasname : Option String) (subquery : Node)
  | otherNode

/-! Size measures for the checker's recursion (the `FROM` worklist flattens
join nodes, so termination is by total size, not structure). -/

mutual

def sizeN : Node → Nat
  | .null => 3
  | .rawStmt s => 3 + sizeN s
  | .selectStmt tl fc w g h so la ra =>
      3 + sizeL tl + sizeL fc + sizeN w + sizeL g + sizeN h + sizeL so +
        sizeO la + sizeO ra
  | .updateStmt _ tl w => 3 + sizeL tl + sizeN w
  | .insertStmt _ cols => 3 + sizeL cols
  | .deleteStmt _ w => 3 + sizeN w
  | .sortBy n => 3 + sizeN n
  | .funcCall args => 3 + sizeL args
  | .aExpr l r => 3 + sizeN l + sizeN r
  | .boolExpr args => 3 + sizeL args
  | .columnRef _ _ => 3
  | .paramRef _ _ => 3
  | .subLink s => 3 + sizeN s
  | .resTarget _ v _ => 3 + sizeN v
  | .rangeVar _ => 3
  | .joinExpr l r q => 3 + sizeN l + sizeN r + sizeN q
  | .rangeSubselect _ _ sub => 3 + sizeN sub
  | .otherNode => 3

def sizeL : List Node → Nat
  | [] => 0
  | n :: l => 1 + sizeN n + sizeL l

def sizeO : Option Node → Nat
  | none => 0
  | some n => sizeN n

end

theorem sizeN_pos (n : Node) : 1 ≤ sizeN n := by
  cases n <;> simp [sizeN] <;> omega

theorem sizeL_append (u v : List Node) : sizeL (u ++ v) = sizeL u + sizeL v := by
  induction u with
  | nil => simp [sizeL]
  | cons x xs ih => simp [sizeL, ih]; omega

theorem sizeL_reverse (l : List Node) : sizeL l.reverse = sizeL l := by
  induction l with
  | nil => rfl
  | cons x xs ih =>
      simp [sizeL, List.reverse_cons, sizeL_append, ih]
      omega

/-! ## Splitting the fields of a column reference

`checkCallRecurse` and `typeCheck` both split `ColumnRef.Fields` by counting
from the front: three fields give `(schema, table, terminal)`, two give
`(table, terminal)`, any other count leaves schema and table empty and takes
the *first* field as the terminal.  A name position holding the star marker
fails the source's type assertion (an abort). -/

def splitColumnFields (items : List ColField) :
    Except String (String × String × ColField) :=
  match items with
  | [] => .error "index out of range"
  | [.str t, term] => .ok ("", t, term)
  | [_, _] => .error "field type assertion"
  | [.str sc, .str t, term] => .ok (sc, t, term)
  | [_, _, _] => .error "field type assertion"
  | a :: _ => .ok ("", "", a)

/-- The select-list variant used by `checkSelect` counts from the *end* of the
field list: the last field is the column, the one before it (if any) the
table, the one before that (if any) the schema.  A single star field is the
unsupported `select *` case (an abort), and a star in a name position fails
the type assertion. -/
def targetColFields (items : List ColField) :
    Except String (String × String × String) :=
  match items with
  | [] => .error "index out of range"
  | [.star] => .error "subqueries with * are not supported yet"
  | _ =>
      match items.reverse with
      | [] => .error "index out of range"
      | .star :: _ => .error "field type assertion"
      | .str col :: prior =>
          match prior with
          | [] => .ok ("", "", col)
          | .star :: _ => .error "field type assertion"
          | .str table :: prior2 =>
              match prior2 with
              | [] => .ok ("", table, col)
              | .star :: _ => .error "field type assertion"
              | .str schema :: _ => .ok (schema, table, col)

/-! ## The parameter type checker (`typeCheck`) -/

/-- The function `typeCheck` fires on a binary expression whose operands pair a column
reference with a parameter reference (`$n`); when the later operand also
matches, it wins (the source assigns left then right).  A resolved column is
compared against the call-site argument type; a dotted driver type first goes
through the best-effort import lookup. -/
def typeCheck (st : State) (fnC : Call) (s : Scope) (lhs rhs : Node) :
    Except String (Option Err) :=
  match lhs, rhs with
  | .null, _ => .ok none
  | _, .null => .ok none
  | _, _ =>
    let cOpt : Option (List ColField × Int) :=
      match rhs with
      | .columnRef f l => some (f, l)
      | _ =>
          match lhs with
          | .columnRef f l => some (f, l)
          | _ => none
    let pOpt : Option (Int × Int) :=
      match rhs with
      | .paramRef n l => some (n, l)
      | _ =>
          match lhs with
          | .paramRef n l => some (n, l)
          | _ => none
    match cOpt, pOpt with
    | none, _ => .ok none
    | _, none => .ok none
    | some (fields, _), some (pnum, ploc) =>
        match splitColumnFields fields with
        | .error e => .error e
        | .ok (schema, table, terminal) =>
            match terminal with
            | .star => .error "type check against weird node type"
            | .str column =>
                let (colOpt, ret) := s.get schema table column
                if ret != scopeRetOk then .ok none
                else
                  match colOpt with
                  | none => .ok none
                  | some col =>
                      if (fnC.argTypes.length : Int) ≤ pnum - 1 then
                        .ok (some (.typeErr schema table column "<none>"
                          col.type col.dbType pnum ploc fnC))
                      else if pnum - 1 < 0 then .error "index out of range"
                      else
                        let argType := fnC.argTypes.getD (pnum - 1).toNat ""
                        let normalizedType := col.type
                        let verdict : Except String (Option Err) :=
                          if argType != normalizedType then
                            .ok (some (.typeErr schema table column argType
                              col.type col.dbType pnum ploc fnC))
                          else .ok none
                        let splits := stringsSplit col.type '.'
                        if splits.length > 1 then
                          let imports := st.importsBasedOnType col.type
                          let allImps := imports.standard ++ imports.thirdParty
                          match findDriverImport (splits.getD 1 "") allImps with
                          | none =>
                              .ok (some (.genericErr
                                ("failed to lookup package for driver type: " ++ col.type)))
                          | some _ => verdict
                        else verdict

/-! ## Select-list processing

The select list is handled inside `checkSelect` without recursing into the
target values: only a target that is itself a column reference is resolved
against the scope; every target contributes an output-column reference unless
its resolution failed. -/

def processTargets (s : Scope) (fnC : Call) (items : List Node) :
    Except String (List outputColRef × List Err) :=
  match items with
  | [] => .ok ([], [])
  | item :: rest =>
      match item with
      | .resTarget nameOpt val _ =>
          let name := nameOpt.getD ""
          match val with
          | .columnRef fields floc =>
              match targetColFields fields with
              | .error e => .error e
              | .ok (schema, table, col) =>
                  let (column, ret) := s.get schema table col
                  if ret != scopeRetOk then
                    match processTargets s fnC rest with
                    | .error e => .error e
                    | .ok (refs, errs) =>
                        .ok (refs,
                          Err.identErr Unknown schema table col floc fnC :: errs)
                  else
                    match (if name == "" then
                             match column with
                             | some c => Except.ok c.name
                             | none => Except.error "nil column dereference"
                           else .ok name :
                           Except String String) with
                    | .error e => .error e
                    | .ok name2 =>
                        match processTargets s fnC rest with
                        | .error e => .error e
                        | .ok (refs, errs) =>
                            .ok ({ name := name2, col := column } :: refs, errs)
          | _ =>
              match processTargets s fnC rest with
              | .error e => .error e
              | .ok (refs, errs) =>
                  .ok ({ name := name, col := none } :: refs, errs)
      | _ => .error "target list item is not a ResTarget"

def pushOutputNames (s : Scope) (refs : List outputColRef) : Scope :=
  refs.foldl (fun sc r => sc.pushOutputName r.name r.col) s

def popOutputNames (s : Scope) : Nat → Scope
  | 0 => s
  | k + 1 => popOutputNames s.popOutputName k

def popTables (s : Scope) : Nat → Scope
  | 0 => s
  | k + 1 => popTables s.popTable k

/-! ## The checker recursion

`checkCallRecurse` dispatches on the node kind; the statement handlers
correspond to the source's `checkSelect` / `checkUpdate` / `checkInsert` /
`checkDelete`; `processFrom` is `checkSelect`'s explicit LIFO worklist over
the `FROM` items (the source's slice-stack pops from the end, so the model
keeps the top of the stack at the head and starts from the reversed item
list); `recurseList` is the source's plain `for … descend` loops. -/

mutual

def checkCallRecurse (st : State) (fnC : Call) (s : Scope) (n : Node) :
    Except String (Scope × List Err) :=
  match n with
  | .rawStmt _ => .error "there should be no raw statements at this level"
  | .selectStmt tl fc w g h so la ra =>
      match checkSelect st fnC s tl fc w g h so la ra with
      | .error e => .error e
      | .ok (s', _, errs) => .ok (s', errs)
  | .updateStmt rel tl w => checkUpdate st fnC s rel tl w
  | .insertStmt rel cols => checkInsert st fnC s rel cols
  | .deleteStmt rel w => checkDelete st fnC s rel w
  | .sortBy inner => checkCallRecurse st fnC s inner
  | .funcCall args => recurseList st fnC s args
  | .aExpr l r =>
      match checkCallRecurse st fnC s l with
      | .error e => .error e
      | .ok (s1, e1) =>
          match checkCallRecurse st fnC s1 r with
          | .error e => .error e
          | .ok (s2, e2) =>
              match typeCheck st fnC s2 l r with
              | .error e => .error e
              | .ok none => .ok (s2, e1 ++ e2)
              | .ok (some te) => .ok (s2, e1 ++ e2 ++ [te])
  | .boolExpr args => recurseList st fnC s args
  | .columnRef fields loc =>
      match splitColumnFields fields with
      | .error e => .error e
      | .ok (schema, table, terminal) =>
          match terminal with
          | .star => .ok (s, [])
          | .str column =>
              let ret := s.has schema table column
              let kind :=
                if ret == scopeRetUnknown then Unknown
                else if ret == scopeRetAmbiguous then Ambiguous
                else Unknown
              if ret != scopeRetOk then
                .ok (s, [.identErr kind schema table column loc fnC])
              else .ok (s, [])
  | .subLink sub => checkCallRecurse st fnC s sub
  | .resTarget nameOpt val loc =>
      let errs1 :=
        match nameOpt with
        | some col =>
            if s.has "" "" col == scopeRetUnknown then
              [Err.identErr Unknown "" "" col loc fnC]
            else []
        | none => []
      -- the source guards `node.Val != nil`; descending into the nil
      -- placeholder is a no-op, so the guard is absorbed
      match checkCallRecurse st fnC s val with
      | .error e => .error e
      | .ok (s1, e2) => .ok (s1, errs1 ++ e2)
  | _ => .ok (s, [])
termination_by sizeN n
decreasing_by all_goals simp [sizeN, sizeL, sizeO] <;> omega

def checkSelect (st : State) (fnC : Call) (s : Scope) (tl fc : List Node)
    (w : Node) (g : List Node) (h : Node) (so : List Node)
    (la ra : Option Node) :
    Except String (Scope × List outputColRef × List Err) :=
  match la, ra with
  | some l, some r =>
      match checkCallRecurse st fnC s l with
      | .error e => .error e
      | .ok (s1, e1) =>
          match checkCallRecurse st fnC s1 r with
          | .error e => .error e
          | .ok (s2, e2) => .ok (s2, [], e1 ++ e2)
  | _, _ => checkSelectMain st fnC s tl fc w g h so
termination_by
  sizeL tl + sizeL fc + sizeN w + sizeL g + sizeN h + sizeL so +
    sizeO la + sizeO ra + 2
decreasing_by all_goals simp [sizeN, sizeL, sizeO, sizeL_reverse] <;> omega

def checkSelectMain (st : State) (fnC : Call) (s : Scope) (tl fc : List Node)
    (w : Node) (g : List Node) (h : Node) (so : List Node) :
    Except String (Scope × List outputColRef × List Err) :=
  match processFrom st fnC s fc.reverse with
  | .error e => .error e
  | .ok (s1, nTables, e1) =>
      match checkCallRecurse st fnC s1 w with
      | .error e => .error e
      | .ok (s2, e2) =>
          match checkCallRecurse st fnC s2 h with
          | .error e => .error e
          | .ok (s3, e3) =>
              match processTargets s3 fnC tl with
              | .error e => .error e
              | .ok (addRefs, e4) =>
                  let s4 := pushOutputNames s3 addRefs
                  match recurseList st fnC s4 g with
                  | .error e => .error e
                  | .ok (s5, e5) =>
                      match recurseList st fnC s5 so with
                      | .error e => .error e
                      | .ok (s6, e6) =>
                          let s7 := popOutputNames s6 addRefs.length
                          let s8 := popTables s7 nTables
                          .ok (s8, addRefs, e1 ++ e2 ++ e3 ++ e4 ++ e5 ++ e6)
termination_by
  sizeL tl + sizeL fc + sizeN w + sizeL g + sizeN h + sizeL so + 1
decreasing_by
  all_goals have hw := sizeN_pos w
  all_goals have hh := sizeN_pos h
  all_goals simp [sizeN, sizeL, sizeO, sizeL_reverse] <;> omega

def processFrom (st : State) (fnC : Call) (s : Scope) (stack : List Node) :
    Except String (Scope × Nat × List Err) :=
  match stack with
  | [] => .ok (s, 0, [])
  | popped :: rest =>
      match popped with
      | .rangeVar rv =>
          let table := rv.relname
          let schema := rv.schemaname.getD ""
          let alias_ := rv.aliasname.getD ""
          match s.pushTable schema table alias_ with
          | (s1, true) =>
              match processFrom st fnC s1 rest with
              | .error e => .error e
              | .ok (s2, cnt, errs) => .ok (s2, cnt + 1, errs)
          | (s1, false) =>
              match processFrom st fnC s1 rest with
              | .error e => .error e
              | .ok (s2, cnt, errs) =>
                  .ok (s2, cnt,
                    Err.identErr Unknown schema table "" rv.location fnC :: errs)
      | .joinExpr jl jr jq => processFrom st fnC s (jl :: jr :: jq :: rest)
      | .aExpr al ar =>
          match checkCallRecurse st fnC s (.aExpr al ar) with
          | .error e => .error e
          | .ok (s1, e1) =>
              match processFrom st fnC s1 rest with
              | .error e => .error e
              | .ok (s2, cnt, errs) => .ok (s2, cnt, e1 ++ errs)
      | .boolExpr bargs =>
          match checkCallRecurse st fnC s (.boolExpr bargs) with
          | .error e => .error e
          | .ok (s1, e1) =>
              match processFrom st fnC s1 rest with
              | .error e => .error e
              | .ok (s2, cnt, errs) => .ok (s2, cnt, e1 ++ errs)
      | .rangeSubselect lateral aliasOpt sub =>
          match aliasOpt with
          | none => .error "subquery must have alias"
          | some aliasName =>
              let subScope := if lateral then s.clone else NewScope s.info
              match sub with
              | .selectStmt stl sfc sw sg sh sso sla sra =>
                  match checkSelect st fnC subScope stl sfc sw sg sh sso sla sra with
                  | .error e => .error e
                  | .ok (_, subSelMap, subErrs) =>
                      let pseudo := outputColsToPseudoTable aliasName subSelMap
                      let s1 := s.pushPseudoTable aliasName pseudo
                      match processFrom st fnC s1 rest with
                      | .error e => .error e
                      | .ok (s2, cnt, errs) => .ok (s2, cnt + 1, subErrs ++ errs)
              | _ => .error "subquery is not a select statement"
      | _ => .error "what is this weird from statement"
termination_by sizeL stack + 1
decreasing_by all_goals simp [sizeN, sizeL, sizeO] <;> omega

def recurseList (st : State) (fnC : Call) (s : Scope) (l : List Node) :
    Except String (Scope × List Err) :=
  match l with
  | [] => .ok (s, [])
  | n :: rest =>
      match checkCallRecurse st fnC s n with
      | .error e => .error e
      | .ok (s1, e1) =>
          match recurseList st fnC s1 rest with
          | .error e => .error e
          | .ok (s2, e2) => .ok (s2, e1 ++ e2)
termination_by sizeL l + 1
decreasing_by all_goals simp [sizeN, sizeL, sizeO] <;> omega

def checkUpdate (st : State) (fnC : Call) (s : Scope) (rel : RangeVarData)
    (tl : List Node) (w : Node) : Except String (Scope × List Err) :=
  let schema := rel.schemaname.getD ""
  let alias_ := rel.aliasname.getD ""
  let table := rel.relname
  match s.pushTable schema table alias_ with
  | (s1, pushed) =>
      let e0 :=
        if pushed then []
        else [Err.identErr Unknown schema table "" rel.location fnC]
      match recurseList st fnC s1 tl with
      | .error e => .error e
      | .ok (s2, e1) =>
          match checkCallRecurse st fnC s2 w with
          | .error e => .error e
          | .ok (s3, e2) =>
              .ok (popTables s3 (if pushed then 1 else 0), e0 ++ e1 ++ e2)
termination_by sizeL tl + sizeN w + 2
decreasing_by all_goals simp [sizeN, sizeL, sizeO] <;> omega

def checkInsert (st : State) (fnC : Call) (s : Scope) (rel : RangeVarData)
    (cols : List Node) : Except String (Scope × List Err) :=
  let schema := rel.schemaname.getD ""
  let alias_ := rel.aliasname.getD ""
  let table := rel.relname
  match s.pushTable schema table alias_ with
  | (s1, pushed) =>
      let e0 :=
        if pushed then []
        else [Err.identErr Unknown schema table "" rel.location fnC]
      match recurseList st fnC s1 cols with
      | .error e => .error e
      | .ok (s2, e1) =>
          .ok (popTables s2 (if pushed then 1 else 0), e0 ++ e1)
termination_by sizeL cols + 2
decreasing_by all_goals simp [sizeN, sizeL, sizeO] <;> omega

def checkDelete (st : State) (fnC : Call) (s : Scope) (rel : RangeVarData)
    (w : Node) : Except String (Scope × List Err) :=
  let schema := rel.schemaname.getD ""
  let alias_ := rel.aliasname.getD ""
  let table := rel.relname
  match s.pushTable schema table alias_ with
  | (s1, pushed) =>
      let e0 :=
        if pushed then []
        else [Err.identErr Unknown schema table "" rel.location fnC]
      match checkCallRecurse st fnC s1 w with
      | .error e => .error e
      | .ok (s2, e1) =>
          .ok (popTables s2 (if pushed then 1 else 0), e0 ++ e1)
termination_by sizeN w + 2
decreasing_by all_goals simp [sizeN, sizeL, sizeO] <;> omega

end

/-- Per-call entry: for each top-level statement (with a `RawStmt` wrapper
unwrapped) recurse with a fresh scope over the catalog and collect the
diagnostics.  (Parsing the SQL string is the external parser's job.) -/
def checkCall (st : State) (fnC : Call) (stmts : List Node) :
    Except String (List Err) :=
  match stmts with
  | [] => .ok []
  | stmt :: rest =>
      let unwrapped :=
        match stmt with
        | .rawStmt inner => inner
        | _ => stmt
      match checkCallRecurse st fnC (NewScope st.dbInfo) unwrapped with
      | .error e => .error e
      | .ok (_, errs) =>
          match checkCall st fnC rest with
          | .error e => .error e
          | .ok errs2 => .ok (errs ++ errs2)

/-! ## The host-language call-site resolver

A fragment of the typed host AST sufficient for the resolver: call
expressions, identifiers (with their optional declaration object), selector
expressions, and the statement wrappers the descent unwraps.  Node kinds the
resolver never inspects are `otherExpr`.  The per-expression type-info map is
a function to an optional `(IsValue, string value, type string)` record.
Source positions are not computed by the embedded fragment; `zeroPos` stands
for them. -/

inductive GoObjKind where
  | con
  | otherKind
deriving Repr, DecidableEq

mutual

inductive GoExpr where
  | identE (name : String) (obj : Option GoObj)
  | callExpr (fnExpr : GoExpr) (args : List GoExpr)
  | selectorExpr (x : GoExpr) (selName : String)
  | exprStmt (x : GoExpr)
  | ifStmt (initStmt : Option GoExpr)
  | assignStmt (rhs : List GoExpr)
  | otherExpr

inductive GoObj where
  | mk (kind : GoObjKind) (decl : GoDecl)

inductive GoDecl where
  | valueSpec (vsId : Nat) (values : List GoExpr)
  | otherDecl

end

/-- The entry of the per-expression type-info map (`types.TypeAndValue`):
whether the expression has a constant value, the string form of that value,
and the printed static type. -/
structure TypeAndValue where
  isValue : Bool
  strVal : String
  typeStr : String
deriving Repr, DecidableEq

def TypesMap := GoExpr → Option TypeAndValue

def zeroPos : FilePos := { filename := "", line := 0, column := 0 }

/-- A non-fatal extraction warning. -/
structure Warn where
  err : String
  pos : FilePos
deriving Repr, DecidableEq

/-- A tagged constant declaration: the fully evaluated string value and the
identity of the declaring value-spec (a pointer in the source, modelled by a
numeric id). -/
structure Constant where
  name : String
  val : String
  valSpecId : Nat
deriving Repr, DecidableEq

structure sqlFunction where
  name : String
  hasContext : Bool
deriving Repr, DecidableEq

def functionWhitelist : List sqlFunction :=
  [ { name := "Exec", hasContext := false }
  , { name := "ExecContext", hasContext := true }
  , { name := "Query", hasContext := false }
  , { name := "QueryContext", hasContext := true }
  , { name := "QueryRow", hasContext := false }
  , { name := "QueryRowContext", hasContext := true }
  , { name := "SQL", hasContext := false } ]

/-- In `getSQLFunction`, the callee's leaf name from an identifier or a
selector, looked up in the whitelist; any other callee shape aborts. -/
def getSQLFunction (fnExpr : GoExpr) : Except String (String × Option sqlFunction) :=
  match fnExpr with
  | .identE nm _ => .ok (nm, functionWhitelist.find? (fun f => f.name == nm))
  | .selectorExpr _ sel => .ok (sel, functionWhitelist.find? (fun f => f.name == sel))
  | _ => .error "unknown function call name type"

/-- The parameter-type loops of `tagCall` and `tagCallsByConstant` (both look
up each argument in the type-info map and abandon on the first missing
entry): `.inl j` is the index of the first failing argument within the given
list, `.inr` the collected type strings in call order. -/
def extractArgTypes (tinfo : TypesMap) : List GoExpr → Nat ⊕ List String
  | [] => .inr []
  | a :: rest =>
      match tinfo a with
      | none => .inl 0
      | some tv =>
          match extractArgTypes tinfo rest with
          | .inl j => .inl (j + 1)
          | .inr ts => .inr (tv.typeStr :: ts)

/-- Resolution of the SQL argument at a whitelisted call: an identifier must
name a constant whose initializer has a constant string value; any other
expression must itself have a constant string value.  `.inl` is the warning
returned as the `(nil, err)` pair, `.inr` the SQL string. -/
def resolveSqlString (tinfo : TypesMap) (arg : GoExpr) :
    Except String (Warn ⊕ String) :=
  match arg with
  | .identE nm objOpt =>
      match objOpt with
      | none => .error "nil pointer dereference"
      | some (.mk kind decl) =>
          if kind != GoObjKind.con then
            .ok (.inl { err := "argument \"" ++ nm ++ "\" to sql function is not a constant"
                        pos := zeroPos })
          else
            match decl with
            | .valueSpec _ values =>
                match values with
                | [] => .error "index out of range"
                | v0 :: _ =>
                    match tinfo v0 with
                    | some tv =>
                        if tv.isValue then .ok (.inr tv.strVal)
                        else .ok (.inl { err := "could not find string value for sql statement"
                                         pos := zeroPos })
                    | none =>
                        .ok (.inl { err := "could not find string value for sql statement"
                                    pos := zeroPos })
            | .otherDecl =>
                .ok (.inl { err := "declaration of \"" ++ nm ++ "\" is not a value"
                            pos := zeroPos })
  | _ =>
      match tinfo arg with
      | some tv =>
          if tv.isValue then .ok (.inr tv.strVal)
          else .ok (.inl { err := "sql argument to function is not an identifier or a constant string"
                           pos := zeroPos })
      | none =>
          .ok (.inl { err := "sql argument to function is not an identifier or a constant string"
                      pos := zeroPos })

/-- The result of `tagCall`'s `(call, err)` pair: `(nil, nil)`, `(nil, err)`,
or `(call, nil)`. -/
inductive TagRes where
  | noCall
  | warnRes (w : Warn)
  | callRes (c : Call)
deriving Repr, DecidableEq

mutual

def sizeG : GoExpr → Nat
  | .identE _ _ => 3
  | .callExpr f args => 3 + sizeG f + sizeGL args
  | .selectorExpr x _ => 3 + sizeG x
  | .exprStmt x => 3 + sizeG x
  | .ifStmt o => 3 + sizeGO o
  | .assignStmt rhs => 3 + sizeGL rhs
  | .otherExpr => 3

def sizeGL : List GoExpr → Nat
  | [] => 0
  | e :: l => 1 + sizeG e + sizeGL l

def sizeGO : Option GoExpr → Nat
  | none => 0
  | some e => sizeG e

end

/-! ### Tagged-expression descent (`tagCall`) -/

/-- The whitelisted branch of `tagCall` (and the only place a `Call` or an
extraction warning is built on the descent path): read the SQL argument at
the context offset, resolve its string, then collect the remaining
arguments' static types. -/
def tagSqlAt (tinfo : TypesMap) (sqlOffset : Nat) (args : List GoExpr) :
    Except String TagRes :=
  match args.get? sqlOffset with
  | none => .error "index out of range"
  | some sqlArg =>
      match resolveSqlString tinfo sqlArg with
      | .error e => .error e
      | .ok (.inl w) => .ok (.warnRes w)
      | .ok (.inr sql) =>
          match extractArgTypes tinfo (args.drop (sqlOffset + 1)) with
          | .inl j =>
              .ok (.warnRes
                { err := "argument " ++ toString (sqlOffset + 1 + j + 1) ++ " type unknown"
                  pos := zeroPos })
          | .inr ts =>
              .ok (.callRes { sql := sql, argTypes := ts, pkg := "", pos := zeroPos })

def tagWhitelisted (tinfo : TypesMap) (fn : sqlFunction) (args : List GoExpr) :
    Except String TagRes :=
  tagSqlAt tinfo (if fn.hasContext then 1 else 0) args

mutual

/-- The function `tagCall` drills down from a tagged node to a whitelisted call.  The
source's `Loop` over `currentNode` reassignments is the recursion on the
unwrapped sub-expression: a callee of the form `inner(...).Sel` that is not
whitelisted continues at the inner call; any other non-whitelisted callee
descends into the arguments via `tagCallArgsLoop`.  (Declarations are
filtered out by the caller; the AST fragment here has no declaration
nodes.) -/
def tagCall (tinfo : TypesMap) (node : GoExpr) : Except String TagRes :=
  match node with
  | .callExpr (.selectorExpr (GoExpr.callExpr cf cargs) sel) args =>
      match getSQLFunction (.selectorExpr (.callExpr cf cargs) sel) with
      | .error e => .error e
      | .ok (_, none) => tagCall tinfo (.callExpr cf cargs)
      | .ok (_, some fn) => tagWhitelisted tinfo fn args
  | .callExpr f args =>
      match getSQLFunction f with
      | .error e => .error e
      | .ok (_, none) => tagCallArgsLoop tinfo args
      | .ok (_, some fn) => tagWhitelisted tinfo fn args
  | .exprStmt x => tagCall tinfo x
  | .ifStmt (some i) => tagCall tinfo i
  | .ifStmt none => .ok .noCall
  | .assignStmt rhs =>
      match rhs with
      | [] => .error "index out of range"
      | r :: _ => tagCall tinfo r
  | _ => .ok .noCall
termination_by sizeG node
decreasing_by all_goals simp [sizeG, sizeGL, sizeGO] <;> omega

/-- The argument descent of a non-whitelisted call: the first argument that
resolves to an inner call wins; inner warnings are discarded (`call, _ :=`);
a panic still propagates. -/
def tagCallArgsLoop (tinfo : TypesMap) (args : List GoExpr) : Except String TagRes :=
  match args with
  | [] => .ok .noCall
  | a :: rest =>
      match tagCall tinfo a with
      | .error e => .error e
      | .ok (.callRes c) => .ok (.callRes c)
      | .ok _ => tagCallArgsLoop tinfo rest
termination_by sizeGL args + 1
decreasing_by all_goals simp [sizeG, sizeGL, sizeGO] <;> omega

end

/-! ### Constant-driven re-scan (`tagCallsByConstant`) -/

/-- The inner loop over the file's tagged constants for one identifier
argument: first constant with the same name whose declaring value-spec is the
identifier's declaration (matched by identity).  A name match with a `nil`
object is the source's nil-pointer dereference. -/
def matchConst (nm : String) (objOpt : Option GoObj) :
    List Constant → Except String (Option Constant)
  | [] => .ok none
  | c :: cs =>
      if c.name != nm then matchConst nm objOpt cs
      else
        match objOpt with
        | none => .error "nil pointer dereference"
        | some (.mk _ decl) =>
            match decl with
            | .valueSpec vid _ =>
                if vid == c.valSpecId then .ok (some c)
                else matchConst nm objOpt cs
            | .otherDecl => matchConst nm objOpt cs

/-- The scan of a call's arguments for a use of a tagged constant.  The
source's loop keeps overwriting `constVal`/`constIndex`, so the *last*
matching argument wins. -/
def scanConstArgs (consts : List Constant) :
    List GoExpr → Nat → Except String (Option (Constant × Nat))
  | [], _ => .ok none
  | a :: rest, i =>
      match (match a with
             | .identE nm objOpt => matchConst nm objOpt consts
             | _ => .ok none :
             Except String (Option Constant)) with
      | .error e => .error e
      | .ok here =>
          match scanConstArgs consts rest (i + 1) with
          | .error e => .error e
          | .ok (some later) => .ok (some later)
          | .ok none => .ok (here.map (fun c => (c, i)))

/-- Outcome of examining one call expression during the re-scan. -/
inductive ConstScanRes where
  | noConst
  | badFn (w : Warn)
  | badArg (w : Warn)
  | got (c : Call)
deriving Repr, DecidableEq

/-- The body of `tagCallsByConstant`'s visitor for one call expression: find
a tagged-constant argument, check the whitelist, then take the arguments
after the constant as the parameter list. -/
def tagCallByConstAtCall (tinfo : TypesMap) (consts : List Constant)
    (f : GoExpr) (args : List GoExpr) : Except String ConstScanRes :=
  match scanConstArgs consts args 0 with
  | .error e => .error e
  | .ok none => .ok .noConst
  | .ok (some (c, k)) =>
      match getSQLFunction f with
      | .error e => .error e
      | .ok (_, none) =>
          .ok (.badFn { err := "tagged constant used in non-sql function", pos := zeroPos })
      | .ok (_, some _) =>
          match extractArgTypes tinfo (args.drop (k + 1)) with
          | .inl j =>
              .ok (.badArg
                { err := "argument " ++ toString (k + 1 + j) ++ " type unknown"
                  pos := zeroPos })
          | .inr ts =>
              .ok (.got { sql := c.val, argTypes := ts, pkg := "", pos := zeroPos })

mutual

/-- Models `ast.Walk` with `tagCallsByConstant`'s visitor: preorder; a call
expression that produced a `Call` is not descended into (the visitor returns
`nil`); warnings do not stop the descent. -/
def walkConst (tinfo : TypesMap) (consts : List Constant) (node : GoExpr) :
    Except String (List Call × List Warn) :=
  match node with
  | .callExpr f args =>
      match tagCallByConstAtCall tinfo consts f args with
      | .error e => .error e
      | .ok .noConst =>
          walkConstList tinfo consts (f :: args)
      | .ok (.badFn w) =>
          match walkConstList tinfo consts (f :: args) with
          | .error e => .error e
          | .ok (cs, ws) => .ok (cs, w :: ws)
      | .ok (.badArg w) =>
          match walkConstList tinfo consts (f :: args) with
          | .error e => .error e
          | .ok (cs, ws) => .ok (cs, w :: ws)
      | .ok (.got c) => .ok ([c], [])
  | .selectorExpr x _ => walkConst tinfo consts x
  | .exprStmt x => walkConst tinfo consts x
  | .ifStmt (some i) => walkConst tinfo consts i
  | .ifStmt none => .ok ([], [])
  | .assignStmt rhs => walkConstList tinfo consts rhs
  | _ => .ok ([], [])
termination_by sizeG node
decreasing_by all_goals simp [sizeG, sizeGL, sizeGO] <;> omega

def walkConstList (tinfo : TypesMap) (consts : List Constant)
    (l : List GoExpr) : Except String (List Call × List Warn) :=
  match l with
  | [] => .ok ([], [])
  | e :: rest =>
      match walkConst tinfo consts e with
      | .error err => .error err
      | .ok (cs1, ws1) =>
          match walkConstList tinfo consts rest with
          | .error err => .error err
          | .ok (cs2, ws2) => .ok (cs1 ++ cs2, ws1 ++ ws2)
termination_by sizeGL l + 1
decreasing_by all_goals simp [sizeG, sizeGL, sizeGO] <;> omega

end

/-! ## Concrete fixtures: the end-to-end catalog of the specification -/

def idColumn : Column :=
  { name := "id", type := "int", dbType := "integer", udtName := "int4"
    fullDBType := "int4", nullable := false, unique := true }

def nameColumn : Column :=
  { name := "name", type := "string", dbType := "text", udtName := "text"
    fullDBType := "text", nullable := false, unique := false }

def videoColumn : Column :=
  { name := "video", type := "string", dbType := "text", udtName := "text"
    fullDBType := "text", nullable := false, unique := false }

def commentColumn : Column :=
  { name := "comment", type := "null.String", dbType := "text", udtName := "text"
    fullDBType := "text", nullable := true, unique := false }

def tagIdColumn : Column :=
  { name := "tag_id", type := "int", dbType := "integer", udtName := "int4"
    fullDBType := "int4", nullable := false, unique := true }

def videoIdColumn : Column :=
  { name := "video_id", type := "int", dbType := "integer", udtName := "int4"
    fullDBType := "int4", nullable := false, unique := true }

def usersTable : Table :=
  { schemaName := "public", name := "users", columns := [idColumn, nameColumn] }

def videosTable : Table :=
  { schemaName := "public", name := "videos", columns := [idColumn, videoColumn] }

def commentsTable : Table :=
  { schemaName := "public", name := "comments", columns := [idColumn, commentColumn] }

def tagVideosTable : Table :=
  { schemaName := "public", name := "tag_videos", columns := [tagIdColumn, videoIdColumn] }

def section8Info : DBInfo :=
  { tables := [usersTable, videosTable, commentsTable, tagVideosTable] }

def emptyImports : String → ImportSet := fun _ => { standard := [], thirdParty := [] }

def section8State : State := { dbInfo := section8Info, importsBasedOnType := emptyImports }

def ambiguousCall : Call :=
  { sql := "select id from users, videos;", argTypes := [], pkg := "pkg", pos := zeroPos }

/-- The parse tree of `select id from users, videos;` as delivered by the
external PostgreSQL parser: one target (`id` at byte offset 7) and two plain
range variables (`users` at 15, `videos` at 22). -/
def ambiguousStmt : Node :=
  .selectStmt
    [.resTarget none (.columnRef [.str "id"] 7) 7]
    [ .rangeVar { schemaname := none, relname := "users", aliasname := none, location := 15 }
    , .rangeVar { schemaname := none, relname := "videos", aliasname := none, location := 22 } ]
    .null [] .null [] none none

/-- The predicate relating a list of call-site arguments to the type strings
collected from the type-info map: entry by entry, in call order. -/
def TypesOf (tinfo : TypesMap) (args : List GoExpr) (ts : List String) : Prop :=
  List.Forall₂ (fun a t => ∃ tv, tinfo a = some tv ∧ t = tv.typeStr) args ts

/-- A `Call` produced by the tagged-expression descent always stems from a
whitelisted call site: the SQL argument sits at the context offset and the
`argTypes` are exactly the extraction over the arguments after it. -/
def TaggedOrigin (tinfo : TypesMap) (c : Call) : Prop :=
  ∃ (f : GoExpr) (args : List GoExpr) (nm : String) (fn : sqlFunction) (sqlArg : GoExpr),
    getSQLFunction f = .ok (nm, some fn) ∧
    args.get? (if fn.hasContext then 1 else 0) = some sqlArg ∧
    resolveSqlString tinfo sqlArg = .ok (.inr c.sql) ∧
    extractArgTypes tinfo (args.drop ((if fn.hasContext then 1 else 0) + 1)) = .inr c.argTypes

/-- A `Call` produced by the constant-driven re-scan stems from some call
expression whose visit yielded it. -/
def ConstOrigin (tinfo : TypesMap) (consts : List Constant) (c : Call) : Prop :=
  ∃ f args, tagCallByConstAtCall tinfo consts f args = .ok (.got c)

/-! ### Fixtures for the extraction paths -/

def witSqlArg : GoExpr := .selectorExpr .otherExpr "sqlLit"

def witArgX : GoExpr := .identE "x" none

def witArgY : GoExpr := .identE "y" none

def witCallee : GoExpr := .selectorExpr (.identE "db" none) "Exec"

/-- A concrete type-info map: the SQL literal has a constant string value, the
two data arguments have static types `int` and `string`. -/
def witTinfo : TypesMap := fun e =>
  match e with
  | .selectorExpr .otherExpr "sqlLit" =>
      some { isValue := true, strVal := "select id from users;", typeStr := "untyped string" }
  | .identE "x" none => some { isValue := false, strVal := "", typeStr := "int" }
  | .identE "y" none => some { isValue := false, strVal := "", typeStr := "string" }
  | _ => none

def witCallNode : GoExpr := .callExpr witCallee [witSqlArg, witArgX, witArgY]

def witCall : Call :=
  { sql := "select id from users;", argTypes := ["int", "string"], pkg := "", pos := zeroPos }

def witConst : Constant := { name := "sqlC", val := "delete from users;", valSpecId := 5 }

def witConstIdent : GoExpr := .identE "sqlC" (some (.mk .con (.valueSpec 5 [])))

def witConstNode : GoExpr := .exprStmt (.callExpr witCallee [witConstIdent, witArgX])

def witConstCall : Call :=
  { sql := "delete from users;", argTypes := ["int"], pkg := "", pos := zeroPos }

/-! ## C1: the ambiguous-column end-to-end scenario -/

/-- C1: checking `select id from users, videos;` against the section-8 catalog
produces exactly one diagnostic with column `"id"` and location 7 — but its
kind field is `Unknown` (the zero value), not `Ambiguous` as the claim (and
the repository's own test) require: the select-list branch of `checkSelect`
builds the identifier error without ever setting the kind. -/
theorem C1_ambiguous_select_eval :
    checkCall section8State ambiguousCall [ambiguousStmt] =
      .ok [.identErr Unknown "" "" "id" 7 ambiguousCall] ∧
    Unknown ≠ Ambiguous := by
  constructor
  · simp [checkCall, checkCallRecurse, checkSelect, checkSelectMain, processFrom, processTargets,
      recurseList, targetColFields, splitColumnFields, NewScope, Scope.pushTable,
      Scope.get, Scope.has, scanTables, scanTableCols, findInScope,
      section8State, section8Info, ambiguousStmt, ambiguousCall, usersTable,
      videosTable, commentsTable, tagVideosTable, idColumn, nameColumn,
      videoColumn, commentColumn, tagIdColumn, videoIdColumn,
      scopeRetOk, scopeRetAmbiguous, scopeRetUnknown, Unknown, Ambiguous,
      pushOutputNames, popOutputNames, popTables, Scope.popTable,
      Scope.pushOutputName, Scope.popOutputName, typeCheck]
  · decide

/-! ## C4: a qualified lookup is never ambiguous -/

/-- C4: `Scope.get` (and hence `Scope.has`) with a non-empty table argument
returns `Ok` or `Unknown`, never `Ambiguous`: the qualified branch resolves a
single table and reports only whether the column exists in it. -/
theorem C4_qualified_never_ambiguous (s : Scope) (schema table column : String)
    (h : table ≠ "") :
    (s.get schema table column).2 ≠ scopeRetAmbiguous ∧
    s.has schema table column ≠ scopeRetAmbiguous := by
  have hget : (s.get schema table column).2 = scopeRetOk ∨
      (s.get schema table column).2 = scopeRetUnknown := by
    unfold Scope.get
    rw [if_pos h]
    cases hfind : findInScope s.tables s.aliases schema table with
    | none => right; rfl
    | some t =>
        cases hcol : t.columns.find? (fun c => c.name == column) with
        | none => right; simp [hcol]
        | some c => left; simp [hcol]
  refine ⟨?_, ?_⟩ <;>
    · show (s.get schema table column).2 ≠ scopeRetAmbiguous
      rcases hget with h2 | h2 <;> rw [h2] <;> decide

/-- Witness for C4 at a concrete input. -/
theorem C4_qualified_never_ambiguous_witness :
    ("users" : String) ≠ "" ∧
    ((NewScope section8Info).get "" "users" "id").2 ≠ scopeRetAmbiguous := by
  refine ⟨by decide, (C4_qualified_never_ambiguous (NewScope section8Info) "" "users" "id" (by decide)).1⟩

/-! ## C2: the unqualified lookup and the output-name stack -/

def cexColumn : Column :=
  { name := "n", type := "int", dbType := "integer", udtName := "int4"
    fullDBType := "int4", nullable := false, unique := false }

def cexTable : Table :=
  { schemaName := "public", name := "t", columns := [cexColumn] }

/-- A scope in which exactly one in-scope table holds a column named `n`,
while the output-name stack also binds `n` (to no column). -/
def outputShadowScope : Scope :=
  { info := { tables := [cexTable] }
    tables := [cexTable]
    aliases := [""]
    outputNames := [{ name := "n", col := none }] }

/-- C2 counterexample: with a unique table hit for `n` *and* an output-name
binding for `n`, `Scope.get` returns the output-name binding's column (here
`none`), not the table's column record — the output-name loop runs after the
table scan unconditionally and overrides its result. -/
theorem C2_output_name_shadows_table_hit :
    Scope.get outputShadowScope "" "" "n" = (none, scopeRetOk) ∧
    ((none : Option Column), scopeRetOk) ≠ (some cexColumn, scopeRetOk) := by
  constructor
  · simp [Scope.get, outputShadowScope, scanTables, scanTableCols, cexTable,
      cexColumn, scopeRetOk, scopeRetUnknown, List.find?]
  · decide

/-- Every column of every in-scope table, in scan order. -/
def allColumns : List Table → List Column
  | [] => []
  | t :: rest => t.columns ++ allColumns rest

theorem scanTableCols_no_hit (c : String) (cols : List Column)
    (acc : Option Column × Nat) (h : ∀ x ∈ cols, ¬x.name = c) :
    scanTableCols c cols acc = some acc := by
  induction cols with
  | nil => rfl
  | cons x rest ih =>
      have hx : (x.name == c) = false := by
        simp only [beq_eq_false_iff_ne, ne_eq]
        exact h x (by simp)
      simp only [scanTableCols, hx, Bool.false_eq_true, if_false]
      exact ih (fun y hy => h y (by simp [hy]))

theorem scanTableCols_unique (c : String) (cols : List Column) (col : Column)
    (h : cols.filter (fun x => x.name == c) = [col]) :
    scanTableCols c cols (none, scopeRetUnknown) = some (some col, scopeRetOk) := by
  induction cols with
  | nil => simp at h
  | cons x rest ih =>
      rw [List.filter_cons] at h
      by_cases hx : (x.name == c) = true
      · rw [if_pos hx] at h
        obtain ⟨hxcol, hrest⟩ := List.cons_eq_cons.mp h
        have hnone : ∀ y ∈ rest, ¬y.name = c := by
          intro y hy
          have := List.filter_eq_nil_iff.mp hrest y hy
          simpa using this
        subst hxcol
        have hstep : scanTableCols c (x :: rest) (none, scopeRetUnknown) =
            scanTableCols c rest (some x, scopeRetOk) := by
          simp [scanTableCols, hx, scopeRetUnknown, scopeRetOk]
        rw [hstep]
        exact scanTableCols_no_hit c rest _ hnone
      · have hx' : (x.name == c) = false := by
          cases hxx : (x.name == c) with
          | true => exact absurd hxx hx
          | false => rfl
        rw [hx', if_neg (by simp)] at h
        simp only [scanTableCols, hx', Bool.false_eq_true, if_false]
        exact ih h

theorem scanTableCols_hit_on_ok (c : String) (cols : List Column)
    (y : Option Column) (h : ∃ x ∈ cols, x.name = c) :
    scanTableCols c cols (y, scopeRetOk) = none := by
  induction cols with
  | nil => simp at h
  | cons x rest ih =>
      by_cases hx : (x.name == c) = true
      · simp [scanTableCols, hx, scopeRetOk]
      · have hx' : (x.name == c) = false := by
          cases hxx : (x.name == c) with
          | true => exact absurd hxx hx
          | false => rfl
        obtain ⟨z, hz, hzname⟩ := h
        rcases List.mem_cons.mp hz with rfl | hzrest
        · exact absurd (by simp [hzname]) hx
        · simp only [scanTableCols, hx', Bool.false_eq_true, if_false]
          exact ih ⟨z, hzrest, hzname⟩

theorem scanTables_no_hit (c : String) (ts : List Table)
    (acc : Option Column × Nat) (h : ∀ x ∈ allColumns ts, ¬x.name = c) :
    scanTables c ts acc = some acc := by
  induction ts with
  | nil => rfl
  | cons t rest ih =>
      have h1 : ∀ x ∈ t.columns, ¬x.name = c := by
        intro x hx; exact h x (by simp [allColumns, hx])
      have h2 : ∀ x ∈ allColumns rest, ¬x.name = c := by
        intro x hx; exact h x (by simp [allColumns, hx])
      simp only [scanTables, scanTableCols_no_hit c t.columns acc h1]
      exact ih h2

theorem scanTables_unique (c : String) (ts : List Table) (col : Column)
    (h : (allColumns ts).filter (fun x => x.name == c) = [col]) :
    scanTables c ts (none, scopeRetUnknown) = some (some col, scopeRetOk) := by
  induction ts with
  | nil => simp [allColumns] at h
  | cons t rest ih =>
      rw [allColumns, List.filter_append] at h
      cases hsplit : t.columns.filter (fun x => x.name == c) with
      | nil =>
          rw [hsplit, List.nil_append] at h
          have h1 : ∀ x ∈ t.columns, ¬x.name = c := by
            intro x hx
            have := List.filter_eq_nil_iff.mp hsplit x hx
            simpa using this
          simp only [scanTables, scanTableCols_no_hit c t.columns _ h1]
          exact ih h
      | cons y ys =>
          rw [hsplit] at h
          have hy : y = col := List.head_eq_of_cons_eq h
          have htail : ys ++ (allColumns rest).filter (fun x => x.name == c) = [] :=
            List.tail_eq_of_cons_eq h
          have hys : ys = [] := by
            cases ys with
            | nil => rfl
            | cons a b => simp at htail
          have hrest : (allColumns rest).filter (fun x => x.name == c) = [] := by
            cases ys with
            | nil => simpa using htail
            | cons a b => simp at htail
          subst hy hys
          have hfirst : t.columns.filter (fun x => x.name == c) = [y] := hsplit
          have hscan := scanTableCols_unique c t.columns y hfirst
          simp only [scanTables, hscan]
          have hnone : ∀ x ∈ allColumns rest, ¬x.name = c := by
            intro x hx
            have := List.filter_eq_nil_iff.mp hrest x hx
            simpa using this
          exact scanTables_no_hit c rest _ hnone

/-- C2 amended: with the table argument empty, (i) if exactly one column named
`c` occurs across all in-scope tables *and no output-name entry binds `c`*,
`Scope.get` returns that column with `Ok`; (ii) whenever the table scan did
not detect an ambiguity, an output-name binding for `c` is returned (status
`Ok`) — it overrides even a unique table hit. -/
theorem C2_unqualified_lookup_amended :
    (∀ (s : Scope) (c : String) (col : Column),
        (allColumns s.tables).filter (fun x => x.name == c) = [col] →
        s.outputNames.find? (fun o => o.name == c) = none →
        s.get "" "" c = (some col, scopeRetOk)) ∧
    (∀ (s : Scope) (c : String) (o : outputColRef) (acc : Option Column × Nat),
        s.outputNames.find? (fun o2 => o2.name == c) = some o →
        scanTables c s.tables (none, scopeRetUnknown) = some acc →
        s.get "" "" c = (o.col, scopeRetOk)) := by
  constructor
  · intro s c col hfilter hout
    unfold Scope.get
    rw [if_neg (by simp)]
    rw [scanTables_unique c s.tables col hfilter, hout]
  · intro s c o acc hout hscan
    unfold Scope.get
    rw [if_neg (by simp)]
    rw [hscan, hout]

/-- Witness for the amended C2: a unique table hit with no output names, and
the shadowing scope of the counterexample. -/
theorem C2_unqualified_lookup_amended_witness :
    Scope.get { info := { tables := [cexTable] }, tables := [cexTable]
                aliases := [""], outputNames := [] } "" "" "n" =
      (some cexColumn, scopeRetOk) ∧
    Scope.get outputShadowScope "" "" "n" = (none, scopeRetOk) := by
  constructor
  · exact C2_unqualified_lookup_amended.1 _ "n" cexColumn (by decide) (by decide)
  · exact C2_unqualified_lookup_amended.2 outputShadowScope "n"
      { name := "n", col := none } (some cexColumn, scopeRetOk)
      (by decide) (by decide)

/-! ## C3: qualified resolution order over the stacks -/

/-- Modelled from the claim's words (for comparison with the code): search the
whole alias stack first, and only if no alias matches fall back to the first
direct (schema-compatible) name match. -/
def findInScopeSpecC3 (tables : List Table) (aliases : List String)
    (schema table : String) : Option Table :=
  match (tables.zip aliases).find? (fun p => p.2 == table) with
  | some p => some p.1
  | none =>
      ((tables.zip aliases).find? (fun p =>
          (schema == "" || p.1.schemaName == schema) && p.1.name == table)).map
        Prod.fst

/-- A scope in which the first entry's table name is `users` while a later
entry carries `users` as its alias. -/
def aliasShadowScope : Scope :=
  { info := { tables := [usersTable, videosTable] }
    tables := [usersTable, videosTable]
    aliases := ["", "users"]
    outputNames := [] }

/-- C3 counterexample: the code resolves the qualifier `users` to the *first*
entry (a direct name match) even though a *later* entry's alias is `users`;
the claim's two-pass rule would pick the aliased entry.  Consequently the
lookup of `users.video` fails in the code while the claimed rule resolves
it. -/
theorem C3_alias_does_not_beat_earlier_name :
    findInScope [usersTable, videosTable] ["", "users"] "" "users" =
      some usersTable ∧
    findInScopeSpecC3 [usersTable, videosTable] ["", "users"] "" "users" =
      some videosTable ∧
    usersTable ≠ videosTable ∧
    Scope.get aliasShadowScope "" "users" "video" = (none, scopeRetUnknown) := by
  refine ⟨by decide, by decide, by decide, by decide⟩

/-- C3 amended: the resolution is a *single* left-to-right scan of the
parallel stacks; at each entry the alias is compared first, then (unless a
supplied schema rules the entry out) the table's own name, and the first
entry matching either way wins.  In particular an earlier entry's direct
name match beats a later entry's alias match. -/
theorem C3_single_pass_resolution_amended :
    (∀ (tables : List Table) (aliases : List String) (schema t : String),
        findInScope tables aliases schema t =
          ((tables.zip aliases).find? (fun p =>
              p.2 == t ||
                ((schema == "" || p.1.schemaName == schema) && p.1.name == t))).map
            Prod.fst) ∧
    (∀ (s : Scope) (tb : Table) (ts : List Table) (a : String)
        (als : List String) (schema t col : String),
        s.tables = tb :: ts → s.aliases = a :: als → t ≠ "" →
        (a == t) = false →
        ((schema == "" || tb.schemaName == schema) && tb.name == t) = true →
        s.get schema t col =
          match tb.columns.find? (fun c => c.name == col) with
          | some c => (some c, scopeRetOk)
          | none => (none, scopeRetUnknown)) := by
  constructor
  · intro tables
    induction tables with
    | nil => intro aliases schema t; cases aliases <;> rfl
    | cons tb ts ih =>
        intro aliases schema t
        cases aliases with
        | nil => rfl
        | cons a als =>
            by_cases ha : a = t
            · have ha' : (a == t) = true := beq_iff_eq.mpr ha
              simp [findInScope, List.find?, ha']
            · have ha' : (a == t) = false := beq_eq_false_iff_ne.mpr ha
              by_cases hsc : schema = ""
              · subst hsc
                by_cases hn : tb.name = t
                · have hn' : (tb.name == t) = true := beq_iff_eq.mpr hn
                  simp [findInScope, List.find?, bne, ha', hn']
                · have hn' : (tb.name == t) = false := beq_eq_false_iff_ne.mpr hn
                  simp [findInScope, List.find?, bne, ha', hn', ih, List.zip]
              · have hsc' : (schema == "") = false := beq_eq_false_iff_ne.mpr hsc
                by_cases hts : tb.schemaName = schema
                · have hts' : (tb.schemaName == schema) = true := beq_iff_eq.mpr hts
                  by_cases hn : tb.name = t
                  · have hn' : (tb.name == t) = true := beq_iff_eq.mpr hn
                    simp [findInScope, List.find?, bne, ha', hsc', hts', hn']
                  · have hn' : (tb.name == t) = false := beq_eq_false_iff_ne.mpr hn
                    simp [findInScope, List.find?, bne, ha', hsc', hts', hn', ih, List.zip]
                · have hts' : (tb.schemaName == schema) = false :=
                    beq_eq_false_iff_ne.mpr hts
                  simp [findInScope, List.find?, bne, ha', hsc', hts', ih, List.zip]
  · intro s tb ts a als schema t col htab hal ht hat hmatch
    unfold Scope.get
    rw [if_pos ht, htab, hal]
    have hor := (Bool.and_eq_true_iff.mp hmatch).1
    have hname : (tb.name == t) = true := (Bool.and_eq_true_iff.mp hmatch).2
    have hskip : (schema != "" && tb.schemaName != schema) = false := by
      rcases Bool.or_eq_true_iff.mp hor with h3 | h3
      · have hsc : schema = "" := eq_of_beq h3
        subst hsc
        simp [bne]
      · have hsc : tb.schemaName = schema := eq_of_beq h3
        simp [bne, hsc]
    have hstep : findInScope (tb :: ts) (a :: als) schema t = some tb := by
      simp [findInScope, hat, hskip, hname]
    rw [hstep]

/-- Witness for the amended C3: the scan characterization at the
counterexample's stacks, and the precedence fact at the same scope. -/
theorem C3_single_pass_resolution_amended_witness :
    (findInScope [usersTable, videosTable] ["", "users"] "" "users" =
      (([usersTable, videosTable].zip ["", "users"]).find? (fun p =>
          p.2 == "users" ||
            (("" == "" || p.1.schemaName == "") && p.1.name == "users"))).map
        Prod.fst) ∧
    Scope.get aliasShadowScope "" "users" "video" =
      (match usersTable.columns.find? (fun c => c.name == "video") with
       | some c => (some c, scopeRetOk)
       | none => (none, scopeRetUnknown)) := by
  constructor
  · exact C3_single_pass_resolution_amended.1 [usersTable, videosTable]
      ["", "users"] "" "users"
  · exact C3_single_pass_resolution_amended.2 aliasShadowScope usersTable
      [videosTable] "" ["users"] "" "users" "video" rfl rfl (by decide)
      (by decide) (by decide)

/-! ## C7: dotted driver types and the import lookup -/

def dottedColumn : Column :=
  { name := "c", type := "null.Bool", dbType := "boolean", udtName := "bool"
    fullDBType := "boolean", nullable := true, unique := false }

def dottedTable : Table :=
  { schemaName := "public", name := "t", columns := [dottedColumn] }

def nullImports : String → ImportSet := fun ty =>
  if ty == "null.Bool" then
    { standard := [], thirdParty := ["\"github.com/volatiletech/null\""] }
  else { standard := [], thirdParty := [] }

def dottedState : State :=
  { dbInfo := { tables := [dottedTable] }, importsBasedOnType := nullImports }

def dottedScope : Scope :=
  { info := { tables := [dottedTable] }
    tables := [dottedTable]
    aliases := [""]
    outputNames := [] }

def dottedCall : Call :=
  { sql := "select * from t where c = $1", argTypes := ["null.Bool"]
    pkg := "pkg", pos := zeroPos }

/-- C7: for the driver type `null.Bool` with declared import
`"github.com/volatiletech/null"`, the import path's last segment equals the
package prefix `null` — the claim says the import is accepted and the equal
strings produce no diagnostic.  The code instead compares the import path's
base against the *type name* segment (`splits[1] = "Bool"`), so the lookup
finds nothing and the generic "failed to lookup package" error is returned
even though call type and driver type are identical. -/
theorem C7_import_lookup_uses_type_name_segment :
    typeCheck dottedState dottedCall dottedScope
        (.columnRef [.str "c"] 22) (.paramRef 1 26) =
      .ok (some (.genericErr "failed to lookup package for driver type: null.Bool")) ∧
    goPathBase (trimQuotes "\"github.com/volatiletech/null\"") = "null" ∧
    (stringsSplit "null.Bool" '.').getD 0 "" = "null" ∧
    (stringsSplit "null.Bool" '.').getD 1 "" = "Bool" := by
  refine ⟨?_, by decide, by decide, by decide⟩
  rfl

/-! ## Scope-stack bookkeeping lemmas -/

theorem pushTable_true (s : Scope) (sch t a : String) (s1 : Scope)
    (h : s.pushTable sch t a = (s1, true)) :
    ∃ tb, s1 = { s with tables := s.tables ++ [tb], aliases := s.aliases ++ [a] } := by
  unfold Scope.pushTable at h
  cases hfind : s.info.tables.find? (fun tb =>
      (sch == "" || tb.schemaName == sch) && tb.name == t) with
  | none => rw [hfind] at h; simp at h
  | some tb =>
      rw [hfind] at h
      simp only [Prod.mk.injEq] at h
      exact ⟨tb, h.1.symm⟩

theorem pushTable_false (s : Scope) (sch t a : String) (s1 : Scope)
    (h : s.pushTable sch t a = (s1, false)) : s1 = s := by
  unfold Scope.pushTable at h
  cases hfind : s.info.tables.find? (fun tb =>
      (sch == "" || tb.schemaName == sch) && tb.name == t) with
  | none =>
      rw [hfind] at h
      simp only [Prod.mk.injEq] at h
      exact h.1.symm
  | some tb => rw [hfind] at h; simp at h

theorem pushOutputNames_spec (s : Scope) (refs : List outputColRef) :
    pushOutputNames s refs = { s with outputNames := s.outputNames ++ refs } := by
  induction refs generalizing s with
  | nil => cases s; simp [pushOutputNames]
  | cons r rest ih =>
      have hstep : pushOutputNames s (r :: rest) =
          pushOutputNames (s.pushOutputName r.name r.col) rest := rfl
      rw [hstep, ih]
      cases s
      simp [Scope.pushOutputName]

theorem popOutputNames_append (s : Scope) :
    ∀ (n : Nat) (refs : List outputColRef), refs.length = n →
      popOutputNames { s with outputNames := s.outputNames ++ refs } n = s := by
  intro n
  induction n with
  | zero =>
      intro refs h
      have : refs = [] := List.eq_nil_of_length_eq_zero h
      subst this
      cases s
      simp [popOutputNames]
  | succ k ih =>
      intro refs h
      have hne : refs ≠ [] := by intro he; subst he; simp at h
      obtain ⟨init, last, rfl⟩ : ∃ init last, refs = init ++ [last] :=
        ⟨refs.dropLast, refs.getLast hne, (List.dropLast_append_getLast hne).symm⟩
      have hpop : ({ s with outputNames := s.outputNames ++ (init ++ [last]) } : Scope).popOutputName =
          { s with outputNames := s.outputNames ++ init } := by
        cases s
        simp only [Scope.popOutputName, ← List.append_assoc, List.dropLast_concat]
      have hstep : popOutputNames
          { s with outputNames := s.outputNames ++ (init ++ [last]) } (k + 1) =
          popOutputNames ({ s with outputNames := s.outputNames ++ (init ++ [last]) } : Scope).popOutputName k := rfl
      rw [hstep, hpop]
      exact ih init (by simpa using h)

theorem popTables_append (s : Scope) :
    ∀ (n : Nat) (ts : List Table) (als : List String),
      ts.length = n → als.length = n →
      popTables { s with tables := s.tables ++ ts, aliases := s.aliases ++ als } n = s := by
  intro n
  induction n with
  | zero =>
      intro ts als ht ha
      have : ts = [] := List.eq_nil_of_length_eq_zero ht
      have ha' : als = [] := List.eq_nil_of_length_eq_zero ha
      subst this; subst ha'
      cases s
      simp [popTables]
  | succ k ih =>
      intro ts als ht ha
      have htne : ts ≠ [] := by intro he; subst he; simp at ht
      have hane : als ≠ [] := by intro he; subst he; simp at ha
      obtain ⟨ti, tlast, rfl⟩ : ∃ i l, ts = i ++ [l] :=
        ⟨ts.dropLast, ts.getLast htne, (List.dropLast_append_getLast htne).symm⟩
      obtain ⟨ai, alast, rfl⟩ : ∃ i l, als = i ++ [l] :=
        ⟨als.dropLast, als.getLast hane, (List.dropLast_append_getLast hane).symm⟩
      set s2 : Scope :=
        { s with tables := s.tables ++ (ti ++ [tlast]), aliases := s.aliases ++ (ai ++ [alast]) } with hs2
      have hpop : s2.popTable =
          { s with tables := s.tables ++ ti, aliases := s.aliases ++ ai } := by
        rw [hs2]
        cases s
        simp only [Scope.popTable, ← List.append_assoc, List.dropLast_concat]
      have hstep : popTables s2 (k + 1) = popTables s2.popTable k := rfl
      rw [hstep, hpop]
      exact ih ti ai (by simpa using ht) (by simpa using ha)

/-! ## The master scope-preservation lemma

By the joint functional induction over the checker: the statement handlers
and the expression recursion return the scope exactly as they received it,
and the `FROM` worklist extends the two table stacks by exactly the number
of tables it reports, leaving the output names untouched. -/

set_option maxHeartbeats 2000000 in
theorem checker_scope_preserved (st : State) (fnC : Call) :
    ∀ (s : Scope) (n : Node), ∀ s' e,
      checkCallRecurse st fnC s n = .ok (s', e) → s' = s := by
  apply checkCallRecurse.induct st fnC
    (fun s n => ∀ s' e, checkCallRecurse st fnC s n = .ok (s', e) → s' = s)
    (fun s l => ∀ s' e, recurseList st fnC s l = .ok (s', e) → s' = s)
    (fun s rel w => ∀ s' e, checkDelete st fnC s rel w = .ok (s', e) → s' = s)
    (fun s rel cols => ∀ s' e, checkInsert st fnC s rel cols = .ok (s', e) → s' = s)
    (fun s rel tl w => ∀ s' e, checkUpdate st fnC s rel tl w = .ok (s', e) → s' = s)
    (fun s tl fc w g h so la ra => ∀ s' refs e,
      checkSelect st fnC s tl fc w g h so la ra = .ok (s', refs, e) → s' = s)
    (fun s tl fc w g h so => ∀ s' refs e,
      checkSelectMain st fnC s tl fc w g h so = .ok (s', refs, e) → s' = s)
    (fun s stack => ∀ s' cnt e, processFrom st fnC s stack = .ok (s', cnt, e) →
      ∃ ts als, ts.length = cnt ∧ als.length = cnt ∧
        s' = { s with tables := s.tables ++ ts, aliases := s.aliases ++ als })
  case case1 =>
    intro s stmt s' e heq
    simp [checkCallRecurse] at heq
  case case2 =>
    intro s tl fc w g h so la ra e2 hsel ih s' e heq
    simp [checkCallRecurse, hsel] at heq
  case case3 =>
    intro s tl fc w g h so la ra s2 fst errs hsel ih s' e heq
    simp [checkCallRecurse, hsel] at heq
    rw [← heq.1]
    exact ih s2 fst errs hsel
  case case4 =>
    intro s rel tl w ih s' e heq
    simp only [checkCallRecurse] at heq
    exact ih s' e heq
  case case5 =>
    intro s rel cols ih s' e heq
    simp only [checkCallRecurse] at heq
    exact ih s' e heq
  case case6 =>
    intro s rel w ih s' e heq
    simp only [checkCallRecurse] at heq
    exact ih s' e heq
  case case7 =>
    intro s inner ih s' e heq
    simp only [checkCallRecurse] at heq
    exact ih s' e heq
  case case8 =>
    intro s args ih s' e heq
    simp only [checkCallRecurse] at heq
    exact ih s' e heq
  case case9 =>
    intro s l r e1 hl ihl s' e heq
    simp [checkCallRecurse, hl] at heq
  case case10 =>
    intro s l r s2 e2 hl e1 hr ihl ihr s' e heq
    simp [checkCallRecurse, hl, hr] at heq
  case case11 =>
    intro s l r s2 e2 hl s3 e3 hr e1 htc ihl ihr s' e heq
    simp [checkCallRecurse, hl, hr, htc] at heq
  case case12 =>
    intro s l r s2 e2 hl s3 e3 hr htc ihl ihr s' e heq
    simp [checkCallRecurse, hl, hr, htc] at heq
    rw [← heq.1, ihr s3 e3 hr]
    exact ihl s2 e2 hl
  case case13 =>
    intro s l r s2 e2 hl s3 e3 hr te htc ihl ihr s' e heq
    simp [checkCallRecurse, hl, hr, htc] at heq
    rw [← heq.1, ihr s3 e3 hr]
    exact ihl s2 e2 hl
  case case14 =>
    intro s args ih s' e heq
    simp only [checkCallRecurse] at heq
    exact ih s' e heq
  case case15 =>
    intro s fields loc e1 hsplit s' e heq
    simp [checkCallRecurse, hsplit] at heq
  case case16 =>
    intro s fields loc schema table hsplit s' e heq
    simp [checkCallRecurse, hsplit] at heq
    exact heq.1.symm
  case case17 =>
    intro s fields loc schema table column ret hret hsplit s' e heq
    simp only [checkCallRecurse, hsplit] at heq
    split at heq <;> (simp at heq; exact heq.1.symm)
  case case18 =>
    intro s fields loc schema table column ret hret hsplit s' e heq
    simp only [checkCallRecurse, hsplit] at heq
    split at heq <;> (simp at heq; exact heq.1.symm)
  case case19 =>
    intro s sub ih s' e heq
    simp only [checkCallRecurse] at heq
    exact ih s' e heq
  case case20 =>
    intro s nameOpt val loc e1 hval ih s' e heq
    cases nameOpt <;> simp [checkCallRecurse, hval] at heq
  case case21 =>
    intro s nameOpt val loc s2 e2 hval ih s' e heq
    cases nameOpt <;>
      · simp [checkCallRecurse, hval] at heq
        rw [← heq.1]
        exact ih s2 e2 hval
  case case22 =>
    intro s n h1 h2 h3 h4 h5 h6 h7 h8 h9 h10 h11 h12 s' e heq
    cases n <;> first
      | (simp [checkCallRecurse] at heq; exact heq.1.symm)
      | exact (h1 _ rfl).elim
      | exact (h2 _ _ _ _ _ _ _ _ rfl).elim
      | exact (h3 _ _ _ rfl).elim
      | exact (h4 _ _ rfl).elim
      | exact (h5 _ _ rfl).elim
      | exact (h6 _ rfl).elim
      | exact (h7 _ rfl).elim
      | exact (h8 _ _ rfl).elim
      | exact (h9 _ rfl).elim
      | exact (h10 _ _ rfl).elim
      | exact (h11 _ rfl).elim
      | exact (h12 _ _ _ rfl).elim
  case case23 =>
    intro s s' e heq
    simp [recurseList] at heq
    exact heq.1.symm
  case case24 =>
    intro s n l e1 hn ihn s' e heq
    simp [recurseList, hn] at heq
  case case25 =>
    intro s n l s2 e2 hn e1 hrest ihn ihrest s' e heq
    simp [recurseList, hn, hrest] at heq
  case case26 =>
    intro s n l s2 e2 hn s3 e3 hrest ihn ihrest s' e heq
    simp [recurseList, hn, hrest] at heq
    rw [← heq.1, ihrest s3 e3 hrest]
    exact ihn s2 e2 hn
  case case27 =>
    intro s rel w
    dsimp only
    intro s1 pushed hpush e1 hw ihw s' e heq
    simp [checkDelete, hpush, hw] at heq
  case case28 =>
    intro s rel w
    dsimp only
    intro s1 pushed hpush s2 e2 hw ihw s' e heq
    simp [checkDelete, hpush, hw] at heq
    rw [← heq.1, ihw s2 e2 hw]
    cases pushed with
    | false =>
        rw [pushTable_false s _ _ _ s1 hpush]
        simp [popTables]
    | true =>
        obtain ⟨tb, h1⟩ := pushTable_true s _ _ _ s1 hpush
        rw [h1]
        simpa using popTables_append s 1 [tb] [rel.aliasname.getD ""] rfl rfl
  case case29 =>
    intro s rel cols
    dsimp only
    intro s1 pushed hpush e1 hc ihc s' e heq
    simp [checkInsert, hpush, hc] at heq
  case case30 =>
    intro s rel cols
    dsimp only
    intro s1 pushed hpush s2 e2 hc ihc s' e heq
    simp [checkInsert, hpush, hc] at heq
    rw [← heq.1, ihc s2 e2 hc]
    cases pushed with
    | false =>
        rw [pushTable_false s _ _ _ s1 hpush]
        simp [popTables]
    | true =>
        obtain ⟨tb, h1⟩ := pushTable_true s _ _ _ s1 hpush
        rw [h1]
        simpa using popTables_append s 1 [tb] [rel.aliasname.getD ""] rfl rfl
  case case31 =>
    intro s rel tl w
    dsimp only
    intro s1 pushed hpush e1 htl ihtl s' e heq
    simp [checkUpdate, hpush, htl] at heq
  case case32 =>
    intro s rel tl w
    dsimp only
    intro s1 pushed hpush s2 e2 htl e1 hw ihtl ihw s' e heq
    simp [checkUpdate, hpush, htl, hw] at heq
  case case33 =>
    intro s rel tl w
    dsimp only
    intro s1 pushed hpush s2 e2 htl s3 e3 hw ihtl ihw s' e heq
    simp [checkUpdate, hpush, htl, hw] at heq
    rw [← heq.1, ihw s3 e3 hw, ihtl s2 e2 htl]
    cases pushed with
    | false =>
        rw [pushTable_false s _ _ _ s1 hpush]
        simp [popTables]
    | true =>
        obtain ⟨tb, h1⟩ := pushTable_true s _ _ _ s1 hpush
        rw [h1]
        simpa using popTables_append s 1 [tb] [rel.aliasname.getD ""] rfl rfl
  case case34 =>
    intro s tl fc w g h so l r e1 hl ihl s' refs e heq
    simp [checkSelect, hl] at heq
  case case35 =>
    intro s tl fc w g h so l r s2 e2 hl e1 hr ihl ihr s' refs e heq
    simp [checkSelect, hl, hr] at heq
  case case36 =>
    intro s tl fc w g h so l r s2 e2 hl s3 e3 hr ihl ihr s' refs e heq
    simp [checkSelect, hl, hr] at heq
    rw [← heq.1, ihr s3 e3 hr]
    exact ihl s2 e2 hl
  case case37 =>
    intro s tl fc w g h so la ra hns ih s' refs e heq
    cases la with
    | some l =>
        cases ra with
        | some r => exact (hns l r rfl rfl).elim
        | none =>
            simp only [checkSelect] at heq
            exact ih s' refs e heq
    | none =>
        cases ra <;>
          · simp only [checkSelect] at heq
            exact ih s' refs e heq
  case case38 =>
    intro s tl fc w g h so e1 hpf ihpf s' refs e heq
    simp [checkSelectMain, hpf] at heq
  case case39 =>
    intro s tl fc w g h so s1 nT e1 hpf e2 hw ihpf ihw s' refs e heq
    simp [checkSelectMain, hpf, hw] at heq
  case case40 =>
    intro s tl fc w g h so s1 nT e1 hpf s2 e2 hw e3 hh ihpf ihw ihh s' refs e heq
    simp [checkSelectMain, hpf, hw, hh] at heq
  case case41 =>
    intro s tl fc w g h so s1 nT e1 hpf s2 e2 hw s3 e3 hh e4 hpt ihpf ihw ihh s' refs e heq
    simp [checkSelectMain, hpf, hw, hh, hpt] at heq
  case case42 =>
    intro s tl fc w g h so s1 nT e1 hpf s2 e2 hw s3 e3 hh refs0 errs0 hpt
    dsimp only
    intro e5 hg ihpf ihw ihh ihg s' refs e heq
    simp [checkSelectMain, hpf, hw, hh, hpt, hg] at heq
  case case43 =>
    intro s tl fc w g h so s1 nT e1 hpf s2 e2 hw s3 e3 hh refs0 errs0 hpt
    dsimp only
    intro s5 e5 hg e6 hso ihpf ihw ihh ihg ihso s' refs e heq
    simp [checkSelectMain, hpf, hw, hh, hpt, hg, hso] at heq
  case case44 =>
    intro s tl fc w g h so s1 nT e1 hpf s2 e2 hw s3 e3 hh refs0 errs0 hpt
    dsimp only
    intro s5 e5 hg s6 e6 hso ihpf ihw ihh ihg ihso s' refs e heq
    simp [checkSelectMain, hpf, hw, hh, hpt, hg, hso] at heq
    rw [← heq.1]
    obtain ⟨ts, als, hts, hals, hs1⟩ := ihpf s1 nT e1 hpf
    rw [ihso s6 e6 hso, ihg s5 e5 hg, ihh s3 e3 hh, ihw s2 e2 hw, hs1,
      pushOutputNames_spec]
    rw [popOutputNames_append _ refs0.length refs0 rfl]
    exact popTables_append s nT ts als hts hals
  case case45 =>
    intro s s' cnt e heq
    simp [processFrom] at heq
    obtain ⟨h1, h2, h3⟩ := heq
    refine ⟨[], [], by simp [← h2], by simp [← h2], ?_⟩
    rw [← h1]
    cases s
    simp
  case case46 =>
    intro s l rv
    dsimp only
    intro s1 hpush e1 hrest ih s' cnt e heq
    simp [processFrom, hpush, hrest] at heq
  case case47 =>
    intro s l rv
    dsimp only
    intro s1 hpush s2 nT e1 hrest ih s' cnt e heq
    simp [processFrom, hpush, hrest] at heq
    obtain ⟨ts, als, hts, hals, hchar⟩ := ih s2 nT e1 hrest
    obtain ⟨tb, h1⟩ := pushTable_true s _ _ _ s1 hpush
    refine ⟨tb :: ts, rv.aliasname.getD "" :: als, ?_, ?_, ?_⟩
    · simp [hts, ← heq.2.1]
    · simp [hals, ← heq.2.1]
    · rw [← heq.1, hchar, h1]
      cases s
      simp
  case case48 =>
    intro s l rv
    dsimp only
    intro s1 hpush e1 hrest ih s' cnt e heq
    simp [processFrom, hpush, hrest] at heq
  case case49 =>
    intro s l rv
    dsimp only
    intro s1 hpush s2 nT e1 hrest ih s' cnt e heq
    simp [processFrom, hpush, hrest] at heq
    obtain ⟨ts, als, hts, hals, hchar⟩ := ih s2 nT e1 hrest
    have h1 : s1 = s := pushTable_false s _ _ _ s1 hpush
    refine ⟨ts, als, ?_, ?_, ?_⟩
    · simp [hts, ← heq.2.1]
    · simp [hals, ← heq.2.1]
    · rw [← heq.1, hchar, h1]
  case case50 =>
    intro s l jl jr jq ih s' cnt e heq
    simp only [processFrom] at heq
    exact ih s' cnt e heq
  case case51 =>
    intro s l al ar e1 hx ihx s' cnt e heq
    simp [processFrom, hx] at heq
  case case52 =>
    intro s l al ar s2 e2 hx e1 hrest ihx ihrest s' cnt e heq
    simp [processFrom, hx, hrest] at heq
  case case53 =>
    intro s l al ar s2 e2 hx s3 nT e1 hrest ihx ihrest s' cnt e heq
    simp [processFrom, hx, hrest] at heq
    obtain ⟨ts, als, hts, hals, hchar⟩ := ihrest s3 nT e1 hrest
    have h1 : s2 = s := ihx s2 e2 hx
    refine ⟨ts, als, ?_, ?_, ?_⟩
    · simp [hts, ← heq.2.1]
    · simp [hals, ← heq.2.1]
    · rw [← heq.1, hchar, h1]
  case case54 =>
    intro s l bargs e1 hx ihx s' cnt e heq
    simp [processFrom, hx] at heq
  case case55 =>
    intro s l bargs s2 e2 hx e1 hrest ihx ihrest s' cnt e heq
    simp [processFrom, hx, hrest] at heq
  case case56 =>
    intro s l bargs s2 e2 hx s3 nT e1 hrest ihx ihrest s' cnt e heq
    simp [processFrom, hx, hrest] at heq
    obtain ⟨ts, als, hts, hals, hchar⟩ := ihrest s3 nT e1 hrest
    have h1 : s2 = s := ihx s2 e2 hx
    refine ⟨ts, als, ?_, ?_, ?_⟩
    · simp [hts, ← heq.2.1]
    · simp [hals, ← heq.2.1]
    · rw [← heq.1, hchar, h1]
  case case57 =>
    intro s l lateral sub s' cnt e heq
    simp [processFrom] at heq
  case case58 =>
    intro s l lateral val
    dsimp only
    intro stl sfc sw sg sh sso sla sra e1 hsel ih s' cnt e heq
    rw [dite_eq_ite] at hsel
    simp [processFrom, hsel] at heq
  case case59 =>
    intro s l lateral val
    dsimp only
    intro stl sfc sw sg sh sso sla sra s2 fst errs hsel e1 hrest ihsel ihrest s' cnt e heq
    rw [dite_eq_ite] at hsel
    simp [processFrom, hsel, hrest] at heq
  case case60 =>
    intro s l lateral val
    dsimp only
    intro stl sfc sw sg sh sso sla sra s2 fst errs hsel s3 nT e1 hrest ihsel ihrest s' cnt e heq
    rw [dite_eq_ite] at hsel
    simp [processFrom, hsel, hrest] at heq
    obtain ⟨ts, als, hts, hals, hchar⟩ := ihrest s3 nT e1 hrest
    refine ⟨outputColsToPseudoTable val fst :: ts, val :: als, ?_, ?_, ?_⟩
    · simp [hts, ← heq.2.1]
    · simp [hals, ← heq.2.1]
    · rw [← heq.1, hchar]
      cases s
      simp [Scope.pushPseudoTable]
  case case61 =>
    intro s l lateral sub val hnotsel s' cnt e heq
    cases sub <;> first
      | exact (hnotsel _ _ _ _ _ _ _ _ rfl).elim
      | simp [processFrom] at heq
  case case62 =>
    intro s l popped hr1 hr2 hr3 hr4 hr5 s' cnt e heq
    cases popped <;> first
      | simp [processFrom] at heq
      | exact (hr1 _ rfl).elim
      | exact (hr2 _ _ _ rfl).elim
      | exact (hr3 _ _ rfl).elim
      | exact (hr4 _ rfl).elim
      | exact (hr5 _ _ _ rfl).elim

theorem select_scope_preserved (st : State) (fnC : Call) (s : Scope)
    (tl fc : List Node) (w : Node) (g : List Node) (h : Node) (so : List Node)
    (la ra : Option Node) (s' : Scope) (refs : List outputColRef) (e : List Err)
    (hsel : checkSelect st fnC s tl fc w g h so la ra = .ok (s', refs, e)) :
    s' = s := by
  have h2 : checkCallRecurse st fnC s (.selectStmt tl fc w g h so la ra) = .ok (s', e) := by
    simp only [checkCallRecurse, hsel]
  exact checker_scope_preserved st fnC s _ s' e h2

theorem update_scope_preserved (st : State) (fnC : Call) (s : Scope)
    (rel : RangeVarData) (tl : List Node) (w : Node) (s' : Scope) (e : List Err)
    (hupd : checkUpdate st fnC s rel tl w = .ok (s', e)) : s' = s := by
  have h2 : checkCallRecurse st fnC s (.updateStmt rel tl w) = .ok (s', e) := by
    simp only [checkCallRecurse]
    exact hupd
  exact checker_scope_preserved st fnC s _ s' e h2

theorem insert_scope_preserved (st : State) (fnC : Call) (s : Scope)
    (rel : RangeVarData) (cols : List Node) (s' : Scope) (e : List Err)
    (hins : checkInsert st fnC s rel cols = .ok (s', e)) : s' = s := by
  have h2 : checkCallRecurse st fnC s (.insertStmt rel cols) = .ok (s', e) := by
    simp only [checkCallRecurse]
    exact hins
  exact checker_scope_preserved st fnC s _ s' e h2

theorem delete_scope_preserved (st : State) (fnC : Call) (s : Scope)
    (rel : RangeVarData) (w : Node) (s' : Scope) (e : List Err)
    (hdel : checkDelete st fnC s rel w = .ok (s', e)) : s' = s := by
  have h2 : checkCallRecurse st fnC s (.deleteStmt rel w) = .ok (s', e) := by
    simp only [checkCallRecurse]
    exact hdel
  exact checker_scope_preserved st fnC s _ s' e h2

/-! ## C5: the scope invariant and push/pop pairing -/

/-- C5: every scope operation preserves `|tables| = |aliases|`, and every
statement handler (and the whole checker recursion) returns the scope's
three stacks at exactly the lengths they had on entry — in fact equal to
their entry values, since every push performed during the traversal is
matched by a pop before the handler returns (including a failed
`pushTable`, which pushes nothing). -/
theorem C5_push_pop_balance :
    (∀ (s : Scope) (sch t a : String), s.tables.length = s.aliases.length →
        (s.pushTable sch t a).1.tables.length = (s.pushTable sch t a).1.aliases.length) ∧
    (∀ (s : Scope) (a : String) (d : Table), s.tables.length = s.aliases.length →
        (s.pushPseudoTable a d).tables.length = (s.pushPseudoTable a d).aliases.length) ∧
    (∀ s : Scope, s.tables.length = s.aliases.length →
        s.popTable.tables.length = s.popTable.aliases.length) ∧
    (∀ s : Scope, s.tables.length = s.aliases.length →
        s.clone.tables.length = s.clone.aliases.length) ∧
    (∀ (st : State) (fnC : Call) (s : Scope) (n : Node) (s' : Scope) (e : List Err),
        checkCallRecurse st fnC s n = .ok (s', e) →
        s'.tables.length = s.tables.length ∧ s'.aliases.length = s.aliases.length ∧
          s'.outputNames.length = s.outputNames.length) ∧
    (∀ (st : State) (fnC : Call) (s : Scope) (tl fc : List Node) (w : Node)
        (g : List Node) (h : Node) (so : List Node) (la ra : Option Node)
        (s' : Scope) (refs : List outputColRef) (e : List Err),
        checkSelect st fnC s tl fc w g h so la ra = .ok (s', refs, e) →
        s'.tables.length = s.tables.length ∧ s'.aliases.length = s.aliases.length ∧
          s'.outputNames.length = s.outputNames.length) ∧
    (∀ (st : State) (fnC : Call) (s : Scope) (rel : RangeVarData) (tl : List Node)
        (w : Node) (s' : Scope) (e : List Err),
        checkUpdate st fnC s rel tl w = .ok (s', e) →
        s'.tables.length = s.tables.length ∧ s'.aliases.length = s.aliases.length ∧
          s'.outputNames.length = s.outputNames.length) ∧
    (∀ (st : State) (fnC : Call) (s : Scope) (rel : RangeVarData) (cols : List Node)
        (s' : Scope) (e : List Err),
        checkInsert st fnC s rel cols = .ok (s', e) →
        s'.tables.length = s.tables.length ∧ s'.aliases.length = s.aliases.length ∧
          s'.outputNames.length = s.outputNames.length) ∧
    (∀ (st : State) (fnC : Call) (s : Scope) (rel : RangeVarData) (w : Node)
        (s' : Scope) (e : List Err),
        checkDelete st fnC s rel w = .ok (s', e) →
        s'.tables.length = s.tables.length ∧ s'.aliases.length = s.aliases.length ∧
          s'.outputNames.length = s.outputNames.length) := by
  refine ⟨?_, ?_, ?_, ?_, ?_, ?_, ?_, ?_, ?_⟩
  · intro s sch t a hlen
    unfold Scope.pushTable
    cases s.info.tables.find? (fun tb => (sch == "" || tb.schemaName == sch) && tb.name == t) with
    | none => simpa using hlen
    | some tb => simp [hlen]
  · intro s a d hlen
    simp [Scope.pushPseudoTable, hlen]
  · intro s hlen
    simp [Scope.popTable, hlen]
  · intro s hlen
    simpa [Scope.clone] using hlen
  · intro st fnC s n s' e hrec
    rw [checker_scope_preserved st fnC s n s' e hrec]
    exact ⟨rfl, rfl, rfl⟩
  · intro st fnC s tl fc w g h so la ra s' refs e hsel
    rw [select_scope_preserved st fnC s tl fc w g h so la ra s' refs e hsel]
    exact ⟨rfl, rfl, rfl⟩
  · intro st fnC s rel tl w s' e hupd
    rw [update_scope_preserved st fnC s rel tl w s' e hupd]
    exact ⟨rfl, rfl, rfl⟩
  · intro st fnC s rel cols s' e hins
    rw [insert_scope_preserved st fnC s rel cols s' e hins]
    exact ⟨rfl, rfl, rfl⟩
  · intro st fnC s rel w s' e hdel
    rw [delete_scope_preserved st fnC s rel w s' e hdel]
    exact ⟨rfl, rfl, rfl⟩

/-- Witness for C5: a concrete push preserves the invariant, and the checked
statement of the C1 scenario returns its fresh scope with stacks at the
entry lengths. -/
theorem C5_push_pop_balance_witness :
    ((NewScope section8Info).pushTable "" "users" "u").1.tables.length =
      ((NewScope section8Info).pushTable "" "users" "u").1.aliases.length ∧
    ∀ s' e, checkCallRecurse section8State ambiguousCall (NewScope section8Info)
        ambiguousStmt = .ok (s', e) →
      s'.tables.length = (NewScope section8Info).tables.length ∧
        s'.aliases.length = (NewScope section8Info).aliases.length ∧
        s'.outputNames.length = (NewScope section8Info).outputNames.length := by
  constructor
  · exact C5_push_pop_balance.1 (NewScope section8Info) "" "users" "u" rfl
  · intro s' e hrec
    exact C5_push_pop_balance.2.2.2.2.1 section8State ambiguousCall
      (NewScope section8Info) ambiguousStmt s' e hrec

/-! ## C9: lateral sub-selects do not pollute the parent scope -/

/-- C9: the child scope of a lateral sub-select is a clone whose stacks equal
the parent's (with the shared catalog); processing the lateral item leaves
the parent scope exactly as it was except for the final push of the
sub-select's pseudo-table; and a pseudo-table push only appends to the two
table stacks, leaving existing entries and the output names untouched. -/
theorem C9_lateral_clone_frame :
    (∀ s : Scope, s.clone.tables = s.tables ∧ s.clone.aliases = s.aliases ∧
        s.clone.outputNames = s.outputNames ∧ s.clone.info = s.info) ∧
    (∀ (st : State) (fnC : Call) (s : Scope) (aliasName : String)
        (stl sfc : List Node) (sw : Node) (sg : List Node) (sh : Node)
        (sso : List Node) (sla sra : Option Node) (cs : Scope)
        (refs : List outputColRef) (errs : List Err),
        checkSelect st fnC s.clone stl sfc sw sg sh sso sla sra = .ok (cs, refs, errs) →
        processFrom st fnC s [.rangeSubselect true (some aliasName)
            (.selectStmt stl sfc sw sg sh sso sla sra)] =
          .ok (s.pushPseudoTable aliasName (outputColsToPseudoTable aliasName refs),
            1, errs)) ∧
    (∀ (s : Scope) (a : String) (d : Table),
        (s.pushPseudoTable a d).tables = s.tables ++ [d] ∧
        (s.pushPseudoTable a d).aliases = s.aliases ++ [a] ∧
        (s.pushPseudoTable a d).outputNames = s.outputNames) := by
  refine ⟨fun s => ⟨rfl, rfl, rfl, rfl⟩, ?_, fun s a d => ⟨rfl, rfl, rfl⟩⟩
  intro st fnC s aliasName stl sfc sw sg sh sso sla sra cs refs errs hsel
  simp [processFrom, hsel]

/-- Witness for C9: a lateral sub-select `select 1`-style (empty select) over
the alias-shadow scope pushes exactly its pseudo-table. -/
theorem C9_lateral_clone_frame_witness :
    processFrom section8State ambiguousCall aliasShadowScope
        [.rangeSubselect true (some "v")
          (.selectStmt [] [] .null [] .null [] none none)] =
      .ok (aliasShadowScope.pushPseudoTable "v" (outputColsToPseudoTable "v" []),
        1, []) := by
  apply C9_lateral_clone_frame.2.1 section8State ambiguousCall aliasShadowScope
    "v" [] [] .null [] .null [] none none aliasShadowScope.clone [] []
  simp [checkSelect, checkSelectMain, processFrom, processTargets, recurseList,
    checkCallRecurse, pushOutputNames, popOutputNames, popTables]

/-! ## C6: parameter index past the end of the argument list -/

/-- C6: on a checked binary expression pairing a resolved column reference
(status `Ok`, non-`nil` column) with a parameter `$n` whose index is past the
call's argument list, the checker produces exactly one diagnostic: a
`TypeErr` with call type `"<none>"`, the column's driver and database types,
and parameter `n` — in either operand order. -/
theorem C6_param_index_overflow (st : State) (fnC : Call) (s : Scope)
    (fields : List ColField) (cloc : Int) (n ploc : Int)
    (schema table column : String) (col : Column)
    (hsplit : splitColumnFields fields = .ok (schema, table, .str column))
    (hget : s.get schema table column = (some col, scopeRetOk))
    (hover : (fnC.argTypes.length : Int) ≤ n - 1) :
    checkCallRecurse st fnC s (.aExpr (.columnRef fields cloc) (.paramRef n ploc)) =
      .ok (s, [.typeErr schema table column "<none>" col.type col.dbType n ploc fnC]) ∧
    checkCallRecurse st fnC s (.aExpr (.paramRef n ploc) (.columnRef fields cloc)) =
      .ok (s, [.typeErr schema table column "<none>" col.type col.dbType n ploc fnC]) := by
  have hhas : s.has schema table column = scopeRetOk := by
    unfold Scope.has
    rw [hget]
  constructor
  · simp only [checkCallRecurse, typeCheck, hsplit, hhas, hget, hover, if_true]
    simp [hover, hget]
  · simp only [checkCallRecurse, typeCheck, hsplit, hhas, hget, hover, if_true]
    simp [hover, hget]

/-- Witness for C6: `id = $1` against the section-8 catalog with an empty
argument list. -/
theorem C6_param_index_overflow_witness :
    checkCallRecurse section8State ambiguousCall
        { info := section8Info, tables := [usersTable], aliases := [""]
          outputNames := [] }
        (.aExpr (.columnRef [.str "id"] 0) (.paramRef 1 5)) =
      .ok ({ info := section8Info, tables := [usersTable], aliases := [""]
             outputNames := [] },
        [.typeErr "" "" "id" "<none>" idColumn.type idColumn.dbType 1 5 ambiguousCall]) := by
  exact (C6_param_index_overflow section8State ambiguousCall _ [.str "id"] 0 1 5
    "" "" "id" idColumn rfl (by decide) (by decide)).1

/-! ## C10: non-column-reference select-list targets are never descended -/

def isColumnRefB : Node → Bool
  | .columnRef _ _ => true
  | _ => false

theorem processTargets_skip (s : Scope) (fnC : Call) (nameOpt : Option String)
    (v : Node) (loc : Int) (rest : List Node) (hv : isColumnRefB v = false) :
    processTargets s fnC (.resTarget nameOpt v loc :: rest) =
      match processTargets s fnC rest with
      | .error e => .error e
      | .ok (refs, errs) => .ok ({ name := nameOpt.getD "", col := none } :: refs, errs) := by
  cases v <;> first
    | rfl
    | simp [isColumnRefB] at hv

theorem processTargets_replace (s : Scope) (fnC : Call) (pre post : List Node)
    (nameOpt : Option String) (v v' : Node) (loc loc' : Int)
    (hv : isColumnRefB v = false) (hv' : isColumnRefB v' = false) :
    processTargets s fnC (pre ++ .resTarget nameOpt v loc :: post) =
      processTargets s fnC (pre ++ .resTarget nameOpt v' loc' :: post) := by
  induction pre generalizing s with
  | nil =>
      rw [List.nil_append, List.nil_append,
        processTargets_skip s fnC nameOpt v loc post hv,
        processTargets_skip s fnC nameOpt v' loc' post hv']
  | cons p pre' ih =>
      cases p <;>
        simp only [List.cons_append, processTargets, List.append_eq, ih]

/-- C10: a select-list target whose value is not a bare column reference is
never recursed into: it contributes the output reference `(alias, none)` and
no diagnostics regardless of what the value is, so two such values are
interchangeable, both in the select-list pass and in the whole `checkSelect`
result. -/
theorem C10_non_column_targets_not_descended :
    (∀ (s : Scope) (fnC : Call) (nameOpt : Option String) (v : Node)
        (loc : Int) (rest : List Node), isColumnRefB v = false →
        processTargets s fnC (.resTarget nameOpt v loc :: rest) =
          match processTargets s fnC rest with
          | .error e => .error e
          | .ok (refs, errs) =>
              .ok ({ name := nameOpt.getD "", col := none } :: refs, errs)) ∧
    (∀ (st : State) (fnC : Call) (s : Scope) (pre post : List Node)
        (nameOpt : Option String) (v v' : Node) (loc loc' : Int)
        (fc : List Node) (w : Node) (g : List Node) (h : Node) (so : List Node)
        (la ra : Option Node),
        isColumnRefB v = false → isColumnRefB v' = false →
        checkSelect st fnC s (pre ++ .resTarget nameOpt v loc :: post)
            fc w g h so la ra =
          checkSelect st fnC s (pre ++ .resTarget nameOpt v' loc' :: post)
            fc w g h so la ra) := by
  constructor
  · exact processTargets_skip
  · intro st fnC s pre post nameOpt v v' loc loc' fc w g h so la ra hv hv'
    have heq : ∀ sc : Scope,
        processTargets sc fnC (pre ++ .resTarget nameOpt v loc :: post) =
          processTargets sc fnC (pre ++ .resTarget nameOpt v' loc' :: post) :=
      fun sc => processTargets_replace sc fnC pre post nameOpt v v' loc loc' hv hv'
    cases la <;> cases ra <;> simp only [checkSelect, checkSelectMain, heq]

/-- Witness for C10: a function-call target contributes `(x, none)` and no
diagnostics; replacing it by a sub-select link leaves `checkSelect`
unchanged. -/
theorem C10_non_column_targets_not_descended_witness :
    (processTargets (NewScope section8Info) ambiguousCall
        [.resTarget (some "x") (.funcCall [.columnRef [.str "nope"] 3] ) 1] =
      match processTargets (NewScope section8Info) ambiguousCall [] with
      | .error e => .error e
      | .ok (refs, errs) => .ok ({ name := "x", col := none } :: refs, errs)) ∧
    checkSelect section8State ambiguousCall (NewScope section8Info)
        ([] ++ .resTarget (some "x") (.funcCall [.columnRef [.str "nope"] 3]) 1 :: [])
        [] .null [] .null [] none none =
      checkSelect section8State ambiguousCall (NewScope section8Info)
        ([] ++ .resTarget (some "x") (.paramRef 1 1) 2 :: [])
        [] .null [] .null [] none none := by
  constructor
  · exact C10_non_column_targets_not_descended.1 (NewScope section8Info)
      ambiguousCall (some "x") (.funcCall [.columnRef [.str "nope"] 3]) 1 [] rfl
  · exact C10_non_column_targets_not_descended.2 section8State ambiguousCall
      (NewScope section8Info) [] [] (some "x")
      (.funcCall [.columnRef [.str "nope"] 3]) (.paramRef 1 1) 1 2
      [] .null [] .null [] none none rfl rfl

/-! ## C8: argument types recorded per call -/

theorem extractArgTypes_inr_spec (tinfo : TypesMap) :
    ∀ (args : List GoExpr) (ts : List String), extractArgTypes tinfo args = .inr ts →
      ts.length = args.length ∧ TypesOf tinfo args ts := by
  intro args
  induction args with
  | nil =>
      intro ts h
      simp [extractArgTypes] at h
      subst h
      exact ⟨rfl, List.Forall₂.nil⟩
  | cons a rest ih =>
      intro ts h
      simp only [extractArgTypes] at h
      cases htv : tinfo a with
      | none => rw [htv] at h; simp at h
      | some tv =>
          rw [htv] at h
          cases hrec : extractArgTypes tinfo rest with
          | inl j => rw [hrec] at h; simp at h
          | inr ts0 =>
              rw [hrec] at h
              simp only [Sum.inr.injEq] at h
              subst h
              obtain ⟨h1, h2⟩ := ih ts0 hrec
              exact ⟨by simp [h1], List.Forall₂.cons ⟨tv, htv, rfl⟩ h2⟩

theorem extractArgTypes_unknown (tinfo : TypesMap) :
    ∀ (args : List GoExpr), (∃ a ∈ args, tinfo a = none) →
      ∃ j, extractArgTypes tinfo args = .inl j := by
  intro args
  induction args with
  | nil =>
      rintro ⟨a, ha, -⟩
      simp at ha
  | cons b rest ih =>
      rintro ⟨a, ha, hnone⟩
      simp only [List.mem_cons] at ha
      cases ha with
      | inl he =>
          subst he
          exact ⟨0, by simp [extractArgTypes, hnone]⟩
      | inr hm =>
          cases htv : tinfo b with
          | none => exact ⟨0, by simp [extractArgTypes, htv]⟩
          | some tv =>
              obtain ⟨j, hj⟩ := ih ⟨a, hm, hnone⟩
              exact ⟨j + 1, by simp [extractArgTypes, htv, hj]⟩

theorem tagSqlAt_callRes_spec (tinfo : TypesMap) (off : Nat) (args : List GoExpr)
    (c : Call) (h : tagSqlAt tinfo off args = .ok (.callRes c)) :
    ∃ (sqlArg : GoExpr),
      args.get? off = some sqlArg ∧
      resolveSqlString tinfo sqlArg = .ok (.inr c.sql) ∧
      extractArgTypes tinfo (args.drop (off + 1)) = .inr c.argTypes := by
  unfold tagSqlAt at h
  split at h
  next heq => simp at h
  next sqlArg heq =>
    split at h
    next e heq2 => simp at h
    next w heq2 => simp at h
    next sql heq2 =>
      split at h
      next j heq3 => simp at h
      next ts heq3 =>
        simp only [Except.ok.injEq, TagRes.callRes.injEq] at h
        exact ⟨sqlArg, heq, by rw [← h]; exact heq2, by rw [← h]; exact heq3⟩

theorem tagSqlAt_extract_warn (tinfo : TypesMap) (off : Nat) (args : List GoExpr)
    (sqlArg : GoExpr) (sql : String) (j : Nat)
    (hget : args.get? off = some sqlArg)
    (hsql : resolveSqlString tinfo sqlArg = .ok (.inr sql))
    (hext : extractArgTypes tinfo (args.drop (off + 1)) = .inl j) :
    ∃ w, tagSqlAt tinfo off args = .ok (.warnRes w) := by
  refine ⟨⟨"argument " ++ toString (off + 1 + j + 1) ++ " type unknown", zeroPos⟩, ?_⟩
  unfold tagSqlAt
  simp only [hget, hsql, hext]

theorem tagCall_callExpr_whitelisted (tinfo : TypesMap) (f : GoExpr)
    (args : List GoExpr) (nm : String) (fn : sqlFunction)
    (hfn : getSQLFunction f = .ok (nm, some fn)) :
    tagCall tinfo (.callExpr f args) = tagWhitelisted tinfo fn args := by
  cases f with
  | identE nm0 obj => simp only [tagCall, hfn]
  | callExpr g gs => simp only [tagCall, hfn]
  | selectorExpr x sel =>
      cases x with
      | callExpr g gs => simp only [tagCall, hfn]
      | identE nm0 obj => simp only [tagCall, hfn]
      | selectorExpr y s2 => simp only [tagCall, hfn]
      | exprStmt y => simp only [tagCall, hfn]
      | ifStmt o => simp only [tagCall, hfn]
      | assignStmt rhs => simp only [tagCall, hfn]
      | otherExpr => simp only [tagCall, hfn]
  | exprStmt y => simp only [tagCall, hfn]
  | ifStmt o => simp only [tagCall, hfn]
  | assignStmt rhs => simp only [tagCall, hfn]
  | otherExpr => simp only [tagCall, hfn]

theorem tagCallByConst_got_spec (tinfo : TypesMap) (consts : List Constant)
    (f : GoExpr) (args : List GoExpr) (c : Call)
    (h : tagCallByConstAtCall tinfo consts f args = .ok (.got c)) :
    ∃ (cst : Constant) (k : Nat) (nm : String) (fn : sqlFunction),
      scanConstArgs consts args 0 = .ok (some (cst, k)) ∧
      getSQLFunction f = .ok (nm, some fn) ∧
      c.sql = cst.val ∧
      extractArgTypes tinfo (args.drop (k + 1)) = .inr c.argTypes := by
  unfold tagCallByConstAtCall at h
  split at h
  next e heq => simp at h
  next heq => simp at h
  next cst k heq =>
    split at h
    next e heq2 => simp at h
    next nm heq2 => simp at h
    next nm fn heq2 =>
      split at h
      next j heq3 => simp at h
      next ts heq3 =>
        simp only [Except.ok.injEq, ConstScanRes.got.injEq] at h
        exact ⟨cst, k, nm, fn, heq, heq2, by rw [← h], by rw [← h]; exact heq3⟩

theorem tagCall_callRes_origin (tinfo : TypesMap) :
    ∀ (node : GoExpr) (c : Call),
      tagCall tinfo node = .ok (.callRes c) → TaggedOrigin tinfo c := by
  apply tagCall.induct tinfo
    (fun node => ∀ c, tagCall tinfo node = .ok (.callRes c) → TaggedOrigin tinfo c)
    (fun args => ∀ c, tagCallArgsLoop tinfo args = .ok (.callRes c) → TaggedOrigin tinfo c)
  case case1 =>
    intro cf cargs sel args e herr c hc
    simp [tagCall, herr] at hc
  case case2 =>
    intro cf cargs sel args fst hok ih c hc
    simp only [tagCall, hok] at hc
    exact ih c hc
  case case3 =>
    intro cf cargs sel args fst fn hok c hc
    simp only [tagCall, hok] at hc
    obtain ⟨sqlArg, hget, hsql, hext⟩ := tagSqlAt_callRes_spec tinfo _ args c hc
    exact ⟨.selectorExpr (.callExpr cf cargs) sel, args, fst, fn, sqlArg,
      hok, hget, hsql, hext⟩
  case case4 =>
    intro f args hnot e herr c hc
    cases f with
    | identE nm0 obj => simp [tagCall, herr] at hc
    | callExpr g gs => simp [tagCall, herr] at hc
    | selectorExpr x sel =>
        cases x with
        | callExpr g gs => exact (hnot g gs sel rfl).elim
        | identE nm0 obj => simp [tagCall, herr] at hc
        | selectorExpr y s2 => simp [tagCall, herr] at hc
        | exprStmt y => simp [tagCall, herr] at hc
        | ifStmt o => simp [tagCall, herr] at hc
        | assignStmt rhs => simp [tagCall, herr] at hc
        | otherExpr => simp [tagCall, herr] at hc
    | exprStmt y => simp [tagCall, herr] at hc
    | ifStmt o => simp [tagCall, herr] at hc
    | assignStmt rhs => simp [tagCall, herr] at hc
    | otherExpr => simp [tagCall, herr] at hc
  case case5 =>
    intro f args hnot fst hok ih c hc
    cases f with
    | identE nm0 obj => simp only [tagCall, hok] at hc; exact ih c hc
    | callExpr g gs => simp only [tagCall, hok] at hc; exact ih c hc
    | selectorExpr x sel =>
        cases x with
        | callExpr g gs => exact (hnot g gs sel rfl).elim
        | identE nm0 obj => simp only [tagCall, hok] at hc; exact ih c hc
        | selectorExpr y s2 => simp only [tagCall, hok] at hc; exact ih c hc
        | exprStmt y => simp only [tagCall, hok] at hc; exact ih c hc
        | ifStmt o => simp only [tagCall, hok] at hc; exact ih c hc
        | assignStmt rhs => simp only [tagCall, hok] at hc; exact ih c hc
        | otherExpr => simp only [tagCall, hok] at hc; exact ih c hc
    | exprStmt y => simp only [tagCall, hok] at hc; exact ih c hc
    | ifStmt o => simp only [tagCall, hok] at hc; exact ih c hc
    | assignStmt rhs => simp only [tagCall, hok] at hc; exact ih c hc
    | otherExpr => simp only [tagCall, hok] at hc; exact ih c hc
  case case6 =>
    intro f args hnot fst fn hok c hc
    rw [tagCall_callExpr_whitelisted tinfo f args fst fn hok] at hc
    unfold tagWhitelisted at hc
    obtain ⟨sqlArg, hget, hsql, hext⟩ := tagSqlAt_callRes_spec tinfo _ args c hc
    exact ⟨f, args, fst, fn, sqlArg, hok, hget, hsql, hext⟩
  case case7 =>
    intro x ih c hc
    simp only [tagCall] at hc
    exact ih c hc
  case case8 =>
    intro i ih c hc
    simp only [tagCall] at hc
    exact ih c hc
  case case9 =>
    intro c hc
    simp [tagCall] at hc
  case case10 =>
    intro c hc
    simp [tagCall] at hc
  case case11 =>
    intro a rest ih c hc
    simp only [tagCall] at hc
    exact ih c hc
  case case12 =>
    intro node h1 h2 h3 h4 h5 h6 c hc
    cases node with
    | identE nm0 obj => simp [tagCall] at hc
    | callExpr g gs => exact (h2 g gs rfl).elim
    | selectorExpr x sel => simp [tagCall] at hc
    | exprStmt x => exact (h3 x rfl).elim
    | ifStmt o =>
        cases o with
        | none => exact (h5 rfl).elim
        | some i => exact (h4 i rfl).elim
    | assignStmt rhs => exact (h6 rhs rfl).elim
    | otherExpr => simp [tagCall] at hc
  case case13 =>
    intro c hc
    simp [tagCallArgsLoop] at hc
  case case14 =>
    intro a rest e herr ih c hc
    simp [tagCallArgsLoop, herr] at hc
  case case15 =>
    intro a rest c0 hta ih c hc
    simp only [tagCallArgsLoop, hta] at hc
    simp only [Except.ok.injEq, TagRes.callRes.injEq] at hc
    rw [← hc]
    exact ih c0 hta
  case case16 =>
    intro a rest r hne hta ih1 ih2 c hc
    simp only [tagCallArgsLoop, hta] at hc
    cases r with
    | noCall => exact ih2 c hc
    | warnRes w => exact ih2 c hc
    | callRes c0 => exact (hne c0 rfl).elim

theorem walkConst_calls_origin (tinfo : TypesMap) (consts : List Constant) :
    ∀ (node : GoExpr) (cs : List Call) (ws : List Warn),
      walkConst tinfo consts node = .ok (cs, ws) →
      ∀ c ∈ cs, ConstOrigin tinfo consts c := by
  apply walkConst.induct tinfo consts
    (fun node => ∀ cs ws, walkConst tinfo consts node = .ok (cs, ws) →
      ∀ c ∈ cs, ConstOrigin tinfo consts c)
    (fun l => ∀ cs ws, walkConstList tinfo consts l = .ok (cs, ws) →
      ∀ c ∈ cs, ConstOrigin tinfo consts c)
  case case1 =>
    intro f args e herr cs ws hw
    simp [walkConst, herr] at hw
  case case2 =>
    intro f args h ih cs ws hw
    simp only [walkConst, h] at hw
    exact ih cs ws hw
  case case3 =>
    intro f args w h e herr ih cs ws hw
    simp [walkConst, h, herr] at hw
  case case4 =>
    intro f args w h cs0 ws0 hlist ih cs ws hw
    simp only [walkConst, h, hlist, Except.ok.injEq, Prod.mk.injEq] at hw
    intro c hcmem
    rw [← hw.1] at hcmem
    exact ih cs0 ws0 hlist c hcmem
  case case5 =>
    intro f args w h e herr ih cs ws hw
    simp [walkConst, h, herr] at hw
  case case6 =>
    intro f args w h cs0 ws0 hlist ih cs ws hw
    simp only [walkConst, h, hlist, Except.ok.injEq, Prod.mk.injEq] at hw
    intro c hcmem
    rw [← hw.1] at hcmem
    exact ih cs0 ws0 hlist c hcmem
  case case7 =>
    intro f args c h cs ws hw
    simp only [walkConst, h, Except.ok.injEq, Prod.mk.injEq] at hw
    intro c0 hcmem
    rw [← hw.1] at hcmem
    simp only [List.mem_singleton] at hcmem
    exact ⟨f, args, by rw [hcmem]; exact h⟩
  case case8 =>
    intro x selName ih cs ws hw
    simp only [walkConst] at hw
    exact ih cs ws hw
  case case9 =>
    intro x ih cs ws hw
    simp only [walkConst] at hw
    exact ih cs ws hw
  case case10 =>
    intro i ih cs ws hw
    simp only [walkConst] at hw
    exact ih cs ws hw
  case case11 =>
    intro cs ws hw
    simp only [walkConst, Except.ok.injEq, Prod.mk.injEq] at hw
    intro c hcmem
    rw [← hw.1] at hcmem
    simp at hcmem
  case case12 =>
    intro rhs ih cs ws hw
    simp only [walkConst] at hw
    exact ih cs ws hw
  case case13 =>
    intro node h1 h2 h3 h4 h5 h6 cs ws hw
    cases node with
    | identE nm0 obj =>
        simp only [walkConst, Except.ok.injEq, Prod.mk.injEq] at hw
        intro c hcmem
        rw [← hw.1] at hcmem
        simp at hcmem
    | callExpr g gs => exact (h1 g gs rfl).elim
    | selectorExpr x sel => exact (h2 x sel rfl).elim
    | exprStmt x => exact (h3 x rfl).elim
    | ifStmt o =>
        cases o with
        | none => exact (h5 rfl).elim
        | some i => exact (h4 i rfl).elim
    | assignStmt rhs => exact (h6 rhs rfl).elim
    | otherExpr =>
        simp only [walkConst, Except.ok.injEq, Prod.mk.injEq] at hw
        intro c hcmem
        rw [← hw.1] at hcmem
        simp at hcmem
  case case14 =>
    intro cs ws hw
    simp only [walkConstList, Except.ok.injEq, Prod.mk.injEq] at hw
    intro c hcmem
    rw [← hw.1] at hcmem
    simp at hcmem
  case case15 =>
    intro a rest e herr ih cs ws hw
    simp [walkConstList, herr] at hw
  case case16 =>
    intro a rest cs1 ws1 ha e hrest ih1 ih2 cs ws hw
    simp [walkConstList, ha, hrest] at hw
  case case17 =>
    intro a rest cs1 ws1 ha cs2 ws2 hrest ih1 ih2 cs ws hw
    simp only [walkConstList, ha, hrest, Except.ok.injEq, Prod.mk.injEq] at hw
    intro c hcmem
    rw [← hw.1] at hcmem
    rcases List.mem_append.mp hcmem with hm | hm
    · exact ih1 cs1 ws1 ha c hm
    · exact ih2 cs2 ws2 hrest c hm

/-- C8: (tagged descent) every `Call` the descent produces comes from a
whitelisted call site whose `argTypes` are exactly the static type strings of
the arguments after the SQL argument (itself after any leading context
argument), in call order and in matching number; when one of those arguments
has no static type the whitelisted branch produces a warning, not a `Call`;
an unknown argument type always drives the extraction into its failure
branch; (re-scan) every `Call` of the constant-driven walk comes from a call
expression whose visit produced it, with `argTypes` likewise the types of the
arguments after the constant SQL argument, and an unknown type there yields
the bad-argument warning. -/
theorem C8_arg_types_per_call :
    (∀ (tinfo : TypesMap) (node : GoExpr) (c : Call),
        tagCall tinfo node = .ok (.callRes c) →
        ∃ (f : GoExpr) (args : List GoExpr) (nm : String) (fn : sqlFunction)
            (sqlArg : GoExpr),
          getSQLFunction f = .ok (nm, some fn) ∧
          args.get? (if fn.hasContext then 1 else 0) = some sqlArg ∧
          resolveSqlString tinfo sqlArg = .ok (.inr c.sql) ∧
          c.argTypes.length = (args.drop ((if fn.hasContext then 1 else 0) + 1)).length ∧
          TypesOf tinfo (args.drop ((if fn.hasContext then 1 else 0) + 1)) c.argTypes) ∧
    (∀ (tinfo : TypesMap) (f : GoExpr) (args : List GoExpr) (nm : String)
        (fn : sqlFunction) (sqlArg : GoExpr) (sql : String) (j : Nat),
        getSQLFunction f = .ok (nm, some fn) →
        args.get? (if fn.hasContext then 1 else 0) = some sqlArg →
        resolveSqlString tinfo sqlArg = .ok (.inr sql) →
        extractArgTypes tinfo (args.drop ((if fn.hasContext then 1 else 0) + 1)) = .inl j →
        ∃ w, tagCall tinfo (.callExpr f args) = .ok (.warnRes w)) ∧
    (∀ (tinfo : TypesMap) (args : List GoExpr),
        (∃ a ∈ args, tinfo a = none) → ∃ j, extractArgTypes tinfo args = .inl j) ∧
    (∀ (tinfo : TypesMap) (consts : List Constant) (node : GoExpr)
        (cs : List Call) (ws : List Warn),
        walkConst tinfo consts node = .ok (cs, ws) →
        ∀ c ∈ cs, ∃ (f : GoExpr) (args : List GoExpr) (cst : Constant) (k : Nat)
            (nm : String) (fn : sqlFunction),
          tagCallByConstAtCall tinfo consts f args = .ok (.got c) ∧
          scanConstArgs consts args 0 = .ok (some (cst, k)) ∧
          getSQLFunction f = .ok (nm, some fn) ∧
          c.sql = cst.val ∧
          c.argTypes.length = (args.drop (k + 1)).length ∧
          TypesOf tinfo (args.drop (k + 1)) c.argTypes) ∧
    (∀ (tinfo : TypesMap) (consts : List Constant) (f : GoExpr)
        (args : List GoExpr) (cst : Constant) (k : Nat) (nm : String)
        (fn : sqlFunction) (j : Nat),
        scanConstArgs consts args 0 = .ok (some (cst, k)) →
        getSQLFunction f = .ok (nm, some fn) →
        extractArgTypes tinfo (args.drop (k + 1)) = .inl j →
        ∃ w, tagCallByConstAtCall tinfo consts f args = .ok (.badArg w)) := by
  refine ⟨?_, ?_, ?_, ?_, ?_⟩
  · intro tinfo node c hc
    obtain ⟨f, args, nm, fn, sqlArg, hfn, hget, hsql, hext⟩ :=
      tagCall_callRes_origin tinfo node c hc
    obtain ⟨hlen, hty⟩ := extractArgTypes_inr_spec tinfo _ _ hext
    exact ⟨f, args, nm, fn, sqlArg, hfn, hget, hsql, hlen, hty⟩
  · intro tinfo f args nm fn sqlArg sql j hfn hget hsql hext
    obtain ⟨w, hw⟩ := tagSqlAt_extract_warn tinfo _ args sqlArg sql j hget hsql hext
    refine ⟨w, ?_⟩
    rw [tagCall_callExpr_whitelisted tinfo f args nm fn hfn]
    unfold tagWhitelisted
    exact hw
  · intro tinfo args h
    exact extractArgTypes_unknown tinfo args h
  · intro tinfo consts node cs ws hw c hcmem
    obtain ⟨f, args, hgot⟩ := walkConst_calls_origin tinfo consts node cs ws hw c hcmem
    obtain ⟨cst, k, nm, fn, hscan, hfn, hsql, hext⟩ :=
      tagCallByConst_got_spec tinfo consts f args c hgot
    obtain ⟨hlen, hty⟩ := extractArgTypes_inr_spec tinfo _ _ hext
    exact ⟨f, args, cst, k, nm, fn, hgot, hscan, hfn, hsql, hlen, hty⟩
  · intro tinfo consts f args cst k nm fn j hscan hfn hext
    refine ⟨⟨"argument " ++ toString (k + 1 + j) ++ " type unknown", zeroPos⟩, ?_⟩
    unfold tagCallByConstAtCall
    simp only [hscan, hfn, hext]

/-- Witness for C8: the tagged descent on a concrete
`db.Exec("select id from users;", x, y)` yields a call whose argTypes are the
two static types after the SQL string, and the constant re-scan on a concrete
`db.Exec(sqlC, x)` yields its call from the visited expression. -/
theorem C8_arg_types_per_call_witness :
    (∃ (f : GoExpr) (args : List GoExpr) (nm : String) (fn : sqlFunction)
        (sqlArg : GoExpr),
      getSQLFunction f = .ok (nm, some fn) ∧
      args.get? (if fn.hasContext then 1 else 0) = some sqlArg ∧
      resolveSqlString witTinfo sqlArg = .ok (.inr witCall.sql) ∧
      witCall.argTypes.length = (args.drop ((if fn.hasContext then 1 else 0) + 1)).length ∧
      TypesOf witTinfo (args.drop ((if fn.hasContext then 1 else 0) + 1)) witCall.argTypes) ∧
    (∀ c ∈ [witConstCall], ∃ (f : GoExpr) (args : List GoExpr) (cst : Constant)
        (k : Nat) (nm : String) (fn : sqlFunction),
      tagCallByConstAtCall witTinfo [witConst] f args = .ok (.got c) ∧
      scanConstArgs [witConst] args 0 = .ok (some (cst, k)) ∧
      getSQLFunction f = .ok (nm, some fn) ∧
      c.sql = cst.val ∧
      c.argTypes.length = (args.drop (k + 1)).length ∧
      TypesOf witTinfo (args.drop (k + 1)) c.argTypes) := by
  constructor
  · exact C8_arg_types_per_call.1 witTinfo witCallNode witCall
      (by simp [tagCall, tagWhitelisted, tagSqlAt, witCallNode, witCallee,
        witSqlArg, witArgX, witArgY, getSQLFunction, functionWhitelist,
        resolveSqlString, extractArgTypes, witTinfo, witCall, List.find?])
  · exact C8_arg_types_per_call.2.2.2.1 witTinfo [witConst] witConstNode
      [witConstCall] []
      (by simp [walkConst, walkConstList, witConstNode, witCallee, witConstIdent,
        witArgX, witConst, witConstCall, tagCallByConstAtCall, scanConstArgs,
        matchConst, getSQLFunction, functionWhitelist, extractArgTypes, witTinfo,
        List.find?])

end Boilcheck
